import Mathlib

set_option linter.unusedVariables false

/-!
# Identity reconciliation service — shallow embedding

This file embeds the reconciliation core of the bitespeed identity
reconciliation service (`src/services/identify.service.ts` together with the
repository layer `src/repositories/contact.repository.ts`) and proves the
spec's claims about it.

Modelling decisions:
* A `Store` is the list of persisted `Contact` rows together with the next
  identifier the database sequence would assign and the current clock value.
  The list order models the database's physical row order: queries with
  `orderBy createdAt asc` are modelled by a stable insertion sort on
  `createdAt` over that list, so rows with equal `createdAt` come back in
  the (unspecified) underlying order, exactly as in PostgreSQL.
* JavaScript truthiness of the optional `email` / `phoneNumber` payload
  fields (`if (email) ...`, `email && ...`) is modelled by `truthy`:
  a field is truthy when it is present and not the empty string.
* The service runs sequentially in the embedding; Prisma transactions
  collapse to ordinary sequencing (a transactional re-read reads the same
  state).  The JavaScript `TypeError`s that `mergeAndRespond` can throw
  (accessing `.id` of `undefined` when the cluster holds no primary) are
  modelled by `Except.error`; since they are thrown before any write of the
  transaction body, the store is returned unchanged, matching rollback.
* `createdAt` timestamps and identifiers are natural numbers; `deletedAt`
  is `Option Nat` (`none` = not soft-deleted).  The unused `updatedAt`
  column is omitted.
-/

namespace BiteSpeed

/-- `linkPrecedence` column: `"primary"` or `"secondary"` in the source. -/
inductive LinkPrecedence where
  | primary
  | secondary
deriving DecidableEq, Repr

/-- A row of the `Contact` table (`ContactRecord` in `src/types/index.ts`). -/
structure Contact where
  id : Nat
  phoneNumber : Option String
  email : Option String
  linkedId : Option Nat
  linkPrecedence : LinkPrecedence
  createdAt : Nat
  deletedAt : Option Nat
deriving DecidableEq, Repr

/-- The contact store: persisted rows (in physical order), the next id the
database sequence assigns, and the clock used for `createdAt` of new rows. -/
structure Store where
  contacts : List Contact
  nextId : Nat
  now : Nat
deriving DecidableEq, Repr

/-- `IdentifyRequest` payload: two optional fields. -/
structure IdentifyRequest where
  email : Option String := none
  phoneNumber : Option String := none
deriving DecidableEq, Repr

/-- `ConsolidatedContact` response shape. -/
structure ConsolidatedContact where
  primaryContactId : Nat
  emails : List String
  phoneNumbers : List String
  secondaryContactIds : List Nat
deriving DecidableEq, Repr

/-- `IdentifyResponse`: the consolidated contact, wrapped. -/
structure IdentifyResponse where
  contact : ConsolidatedContact
deriving DecidableEq, Repr

/-- JavaScript truthiness of an optional string: `undefined`/`null` and the
empty string are falsy (`if (email)`, `email && ...` in the source). -/
def truthy : Option String → Bool
  | none => false
  | some s => s ≠ ""

/-- The ordering on contacts used by every sort in the source:
ascending `createdAt`. -/
def byCreatedAt (a b : Contact) : Prop := a.createdAt ≤ b.createdAt

instance : DecidableRel byCreatedAt := fun a b => Nat.decLe a.createdAt b.createdAt

instance : IsTotal Contact byCreatedAt := ⟨fun a b => Nat.le_total a.createdAt b.createdAt⟩

instance : IsTrans Contact byCreatedAt := ⟨fun _ _ _ => Nat.le_trans⟩

/-- Stable sort ascending by `createdAt`: models both Prisma's
`orderBy: { createdAt: "asc" }` (ties stay in the underlying, unspecified
row order) and the stable JavaScript `Array.prototype.sort` with comparator
`a.createdAt.getTime() - b.createdAt.getTime()`. -/
def sortByCreatedAt (l : List Contact) : List Contact :=
  List.insertionSort byCreatedAt l

/-- `repo.findContactsByEmailOrPhone`: non-deleted rows whose `email` equals
the truthy submitted email or whose `phoneNumber` equals the truthy
submitted phone, ordered by `createdAt` ascending; the empty list without a
query when neither field is truthy. -/
def findContactsByEmailOrPhone (email phoneNumber : Option String)
    (s : Store) : List Contact :=
  if truthy email || truthy phoneNumber then
    sortByCreatedAt (s.contacts.filter (fun c =>
      c.deletedAt == none &&
      ((truthy email && c.email == email) ||
       (truthy phoneNumber && c.phoneNumber == phoneNumber))))
  else []

/-- `repo.findContactCluster`: non-deleted rows whose `id` is in
`primaryIds` or whose `linkedId` is in `primaryIds`, ordered by `createdAt`
ascending. -/
def findContactCluster (primaryIds : List Nat) (s : Store) : List Contact :=
  sortByCreatedAt (s.contacts.filter (fun c =>
    c.deletedAt == none &&
    (primaryIds.contains c.id ||
      (match c.linkedId with
       | some l => primaryIds.contains l
       | none => false))))

/-- `repo.createPrimaryContact`: insert a new row with
`linkPrecedence = "primary"`, no `linkedId`, and the submitted fields
(`email ?? null`, `phoneNumber ?? null`). -/
def createPrimaryContact (email phoneNumber : Option String)
    (s : Store) : Contact × Store :=
  let c : Contact :=
    { id := s.nextId, phoneNumber := phoneNumber, email := email,
      linkedId := none, linkPrecedence := .primary,
      createdAt := s.now, deletedAt := none }
  (c, { s with contacts := s.contacts ++ [c], nextId := s.nextId + 1 })

/-- `repo.createSecondaryContact`: insert a new row with
`linkPrecedence = "secondary"`, the given `linkedId`, and only the
submitted fields. -/
def createSecondaryContact (linkedId : Nat) (email phoneNumber : Option String)
    (s : Store) : Contact × Store :=
  let c : Contact :=
    { id := s.nextId, phoneNumber := phoneNumber, email := email,
      linkedId := some linkedId, linkPrecedence := .secondary,
      createdAt := s.now, deletedAt := none }
  (c, { s with contacts := s.contacts ++ [c], nextId := s.nextId + 1 })

/-- The row-level effect of `demotePrimaryToSecondary` on one contact. -/
def demoteOne (contactIds : List Nat) (newLinkedId : Nat) (c : Contact) :
    Contact :=
  if contactIds.contains c.id then
    { c with linkPrecedence := .secondary, linkedId := some newLinkedId }
  else c

/-- `repo.demotePrimaryToSecondary`: `updateMany where id in contactIds`
setting `linkPrecedence = "secondary"` and `linkedId = newLinkedId`
(no `deletedAt` filter, as in the source). -/
def demotePrimaryToSecondary (contactIds : List Nat) (newLinkedId : Nat)
    (s : Store) : Store :=
  { s with contacts := s.contacts.map (demoteOne contactIds newLinkedId) }

/-- The row-level effect of `relinkSecondaries` on one contact. -/
def relinkOne (oldPrimaryId newPrimaryId : Nat) (c : Contact) : Contact :=
  if c.linkedId == some oldPrimaryId && c.deletedAt == none then
    { c with linkedId := some newPrimaryId }
  else c

/-- `repo.relinkSecondaries`: `updateMany where linkedId = oldPrimaryId and
deletedAt is null` setting `linkedId = newPrimaryId`. -/
def relinkSecondaries (oldPrimaryId newPrimaryId : Nat) (s : Store) : Store :=
  { s with contacts := s.contacts.map (relinkOne oldPrimaryId newPrimaryId) }

/-- One step of the root-id collection: add the contact's own id if it is a
primary, else its `linkedId` when non-null, skipping ids already seen
(a JavaScript `Set.add`). -/
def rootStep (ids : List Nat) (c : Contact) : List Nat :=
  if c.linkPrecedence == .primary then
    (if ids.contains c.id then ids else ids ++ [c.id])
  else
    match c.linkedId with
    | some l => if ids.contains l then ids else ids ++ [l]
    | none => ids

/-- `getRootPrimaryIds`: for each matched contact, its own id if it is a
primary, else its `linkedId` when non-null; deduplicated in first-seen
order (a JavaScript `Set`). -/
def getRootPrimaryIds (contacts : List Contact) : List Nat :=
  contacts.foldl rootStep []

/-- One `Set.add` guarded by truthiness: `if (x.email) set.add(x.email)`
with insertion-ordered deduplication. -/
def addVal (acc : List String) (v : Option String) : List String :=
  match v with
  | some s => if s ≠ "" && !acc.contains s then acc ++ [s] else acc
  | none => acc

/-- `buildResponse`: primary's id; emails and phone numbers deduplicated in
insertion order with the primary's own value first when truthy; the
secondaries' ids in the given order. -/
def buildResponse (primary : Contact) (secondaries : List Contact) :
    IdentifyResponse :=
  let e0 := addVal [] primary.email
  let p0 := addVal [] primary.phoneNumber
  let pair := secondaries.foldl
    (fun (acc : List String × List String) c =>
      (addVal acc.1 c.email, addVal acc.2 c.phoneNumber)) (e0, p0)
  { contact :=
    { primaryContactId := primary.id
      emails := pair.1
      phoneNumbers := pair.2
      secondaryContactIds := secondaries.map (·.id) } }

/-- Steps 5a/5b of `mergeAndRespond`: if there are stale primaries, demote
them all to secondary pointing at the true primary, then for each stale
primary relink its secondaries to the true primary. -/
def mergeClusters (truePrimary : Contact) (stalePrimaries : List Contact)
    (s : Store) : Store :=
  if stalePrimaries.isEmpty then s
  else
    stalePrimaries.foldl
      (fun acc st => relinkSecondaries st.id truePrimary.id acc)
      (demotePrimaryToSecondary (stalePrimaries.map (·.id)) truePrimary.id s)

/-- The distinct (non-null) emails of a cluster, as the source's
`clusterEmails` set contents. -/
def clusterEmailsOf (cluster : List Contact) : List String :=
  cluster.filterMap (·.email)

/-- The distinct (non-null) phone numbers of a cluster. -/
def clusterPhonesOf (cluster : List Contact) : List String :=
  cluster.filterMap (·.phoneNumber)

/-- `isNewEmail = email && !clusterEmails.has(email)`. -/
def isNewEmail (email : Option String) (cluster : List Contact) : Bool :=
  match email with
  | some e => e ≠ "" && !(clusterEmailsOf cluster).contains e
  | none => false

/-- `isNewPhone = phoneNumber && !clusterPhones.has(phoneNumber)`. -/
def isNewPhone (phoneNumber : Option String) (cluster : List Contact) : Bool :=
  match phoneNumber with
  | some p => p ≠ "" && !(clusterPhonesOf cluster).contains p
  | none => false

/-- Step 5 of `mergeAndRespond`: the cluster's primaries sorted ascending by
`createdAt` (the stable JavaScript sort).  The head is `truePrimary`, the
tail `stalePrimaries`. -/
def clusterPrimaries (cluster : List Contact) : List Contact :=
  sortByCreatedAt (cluster.filter (fun c => c.linkPrecedence == .primary))

/-- The store after the transaction body of `mergeAndRespond` (steps 5a,
5b and 6): demote and relink the stale primaries, re-read the cluster, and
create one secondary contact when the payload carries a genuinely new
fact. -/
def mergedStore (truePrimary : Contact) (stalePrimaries : List Contact)
    (email phoneNumber : Option String) (s : Store) : Store :=
  let s1 := mergeClusters truePrimary stalePrimaries s
  let freshCluster := findContactCluster [truePrimary.id] s1
  if isNewEmail email freshCluster || isNewPhone phoneNumber freshCluster
  then (createSecondaryContact truePrimary.id email phoneNumber s1).2
  else s1

/-- Step 7 of `mergeAndRespond` after the true primary has been picked:
run the transaction body, reload the final cluster state and build the
response.  A missing `finalPrimary` would again be a JavaScript
`TypeError`. -/
def mergeOutcome (truePrimary : Contact) (stalePrimaries : List Contact)
    (email phoneNumber : Option String) (s : Store) :
    Except String (Store × IdentifyResponse) :=
  let s2 := mergedStore truePrimary stalePrimaries email phoneNumber s
  let finalCluster := findContactCluster [truePrimary.id] s2
  match finalCluster.find? (fun c => c.id == truePrimary.id) with
  | none => .error "TypeError: finalPrimary undefined"
  | some finalPrimary =>
    let secondaries :=
      finalCluster.filter (fun c => c.linkPrecedence == .secondary)
    .ok (s2, buildResponse finalPrimary secondaries)

/-- `mergeAndRespond`: resolve root primary ids, fetch the full cluster,
pick the true primary (first of the primaries sorted by `createdAt`),
demote/relink stale primaries, re-read the cluster, conditionally create a
secondary carrying the genuinely new facts, and build the response from the
final cluster state.  An empty `primaries` list makes the source dereference
`undefined` (`truePrimary.id`) and throw; this is the `Except.error` case. -/
def mergeAndRespond (directMatches : List Contact)
    (email phoneNumber : Option String) (s : Store) :
    Except String (Store × IdentifyResponse) :=
  let primaryIds := getRootPrimaryIds directMatches
  let cluster := findContactCluster primaryIds s
  match clusterPrimaries cluster with
  | [] => .error "TypeError: cannot read property id of undefined"
  | truePrimary :: stalePrimaries =>
    mergeOutcome truePrimary stalePrimaries email phoneNumber s

/-- `identifyContact`: find direct matches; on zero matches re-check inside
the transaction and create a brand-new primary when still none, otherwise
fall through (re-fetching) into the merge path; on matches, merge and
respond.  Sequentially the transactional re-check reads the same state. -/
def identifyContact (payload : IdentifyRequest) (s : Store) :
    Except String (Store × IdentifyResponse) :=
  let email := payload.email
  let phoneNumber := payload.phoneNumber
  let directMatches := findContactsByEmailOrPhone email phoneNumber s
  if directMatches.isEmpty then
    let recheck := findContactsByEmailOrPhone email phoneNumber s
    if recheck.isEmpty then
      let cs := createPrimaryContact email phoneNumber s
      .ok (cs.2, buildResponse cs.1 [])
    else
      let fallbackMatches := findContactsByEmailOrPhone email phoneNumber s
      if fallbackMatches.isEmpty then
        let cs := createPrimaryContact email phoneNumber s
        .ok (cs.2, buildResponse cs.1 [])
      else
        mergeAndRespond fallbackMatches email phoneNumber s
  else
    mergeAndRespond directMatches email phoneNumber s

/-- The data-model invariants of a valid store state (spec section 3):
unique identifiers below the sequence counter, representatives carry no
link target, and every non-deleted member links to a non-deleted
representative. -/
structure WellFormed (s : Store) : Prop where
  nodupIds : (s.contacts.map Contact.id).Nodup
  idLt : ∀ c ∈ s.contacts, c.id < s.nextId
  primaryNoLink : ∀ c ∈ s.contacts,
    c.linkPrecedence = .primary → c.linkedId = none
  secondaryLink : ∀ c ∈ s.contacts,
    c.linkPrecedence = .secondary → c.deletedAt = none →
    ∃ p ∈ s.contacts, c.linkedId = some p.id ∧
      p.linkPrecedence = .primary ∧ p.deletedAt = none


/-! ## Basic lemmas about the sort and the repository queries -/

theorem sortByCreatedAt_perm (l : List Contact) :
    List.Perm (sortByCreatedAt l) l :=
  List.perm_insertionSort byCreatedAt l

theorem mem_sortByCreatedAt {l : List Contact} {c : Contact} :
    c ∈ sortByCreatedAt l ↔ c ∈ l :=
  List.mem_insertionSort byCreatedAt

theorem sortByCreatedAt_sorted (l : List Contact) :
    (sortByCreatedAt l).Sorted byCreatedAt :=
  List.sorted_insertionSort byCreatedAt l

theorem contains_iff_mem {α : Type} [BEq α] [LawfulBEq α] {l : List α}
    {a : α} : l.contains a = true ↔ a ∈ l := by
  simp

theorem mem_findContactCluster {primaryIds : List Nat} {s : Store} {c : Contact} :
    c ∈ findContactCluster primaryIds s ↔
      c ∈ s.contacts ∧ c.deletedAt = none ∧
        (c.id ∈ primaryIds ∨ ∃ l, c.linkedId = some l ∧ l ∈ primaryIds) := by
  unfold findContactCluster
  rw [mem_sortByCreatedAt, List.mem_filter]
  constructor
  · rintro ⟨hmem, hcond⟩
    refine ⟨hmem, ?_, ?_⟩
    · cases hdel : c.deletedAt with
      | none => rfl
      | some d => rw [hdel] at hcond; simp at hcond
    · cases hdel : c.deletedAt with
      | some d => rw [hdel] at hcond; simp at hcond
      | none =>
        rw [hdel] at hcond
        simp only [Bool.and_eq_true, Bool.or_eq_true] at hcond
        rcases hcond with ⟨-, hid | hlink⟩
        · exact Or.inl (contains_iff_mem.mp hid)
        · cases hl : c.linkedId with
          | none => rw [hl] at hlink; simp at hlink
          | some l =>
            rw [hl] at hlink
            exact Or.inr ⟨l, rfl, contains_iff_mem.mp hlink⟩
  · rintro ⟨hmem, hdel, hroot⟩
    refine ⟨hmem, ?_⟩
    rw [hdel]
    simp only [Bool.and_eq_true, Bool.or_eq_true]
    refine ⟨rfl, ?_⟩
    rcases hroot with hid | ⟨l, hl, hin⟩
    · exact Or.inl (contains_iff_mem.mpr hid)
    · rw [hl]
      exact Or.inr (contains_iff_mem.mpr hin)

theorem mem_findContactsByEmailOrPhone {em ph : Option String} {s : Store}
    {c : Contact} :
    c ∈ findContactsByEmailOrPhone em ph s ↔
      (truthy em = true ∨ truthy ph = true) ∧ c ∈ s.contacts ∧
        c.deletedAt = none ∧
        ((truthy em = true ∧ c.email = em) ∨
         (truthy ph = true ∧ c.phoneNumber = ph)) := by
  unfold findContactsByEmailOrPhone
  by_cases h : (truthy em || truthy ph) = true
  · rw [if_pos h, mem_sortByCreatedAt, List.mem_filter]
    simp only [Bool.or_eq_true] at h
    constructor
    · rintro ⟨hmem, hcond⟩
      simp only [Bool.and_eq_true, Bool.or_eq_true, beq_iff_eq] at hcond
      exact ⟨h, hmem, hcond.1, hcond.2⟩
    · rintro ⟨-, hmem, hdel, hmatch⟩
      refine ⟨hmem, ?_⟩
      simp only [Bool.and_eq_true, Bool.or_eq_true, beq_iff_eq]
      exact ⟨hdel, hmatch⟩
  · rw [if_neg h]
    simp only [Bool.or_eq_true] at h
    push_neg at h
    simp only [List.not_mem_nil, false_iff, not_and]
    intro hor
    rcases hor with he | hp
    · exact absurd he h.1
    · exact absurd hp h.2

/-! ## Root-id collection -/

theorem mem_rootStep {ids : List Nat} {c : Contact} {i : Nat} :
    i ∈ rootStep ids c ↔
      i ∈ ids ∨ (c.linkPrecedence = .primary ∧ i = c.id) ∨
        (c.linkPrecedence = .secondary ∧ c.linkedId = some i) := by
  unfold rootStep
  cases hp : c.linkPrecedence with
  | primary =>
    simp only [beq_self_eq_true, if_true, reduceCtorEq, false_and, or_false,
      true_and]
    by_cases hc : ids.contains c.id = true
    · rw [if_pos hc]
      constructor
      · exact fun h => Or.inl h
      · rintro (h | rfl)
        · exact h
        · exact contains_iff_mem.mp hc
    · rw [if_neg hc]
      simp [List.mem_append]
  | secondary =>
    rw [if_neg (by decide :
      ¬((LinkPrecedence.secondary == LinkPrecedence.primary) = true))]
    simp only [reduceCtorEq, false_and, false_or, true_and]
    cases hl : c.linkedId with
    | none => simp
    | some l =>
      simp only [Option.some.injEq]
      by_cases hc : ids.contains l = true
      · rw [if_pos hc]
        constructor
        · exact fun h => Or.inl h
        · rintro (h | rfl)
          · exact h
          · exact contains_iff_mem.mp hc
      · rw [if_neg hc]
        rw [List.mem_append, List.mem_singleton]
        exact or_congr Iff.rfl eq_comm

theorem mem_foldl_rootStep {l : List Contact} {acc : List Nat} {i : Nat} :
    i ∈ l.foldl rootStep acc ↔
      i ∈ acc ∨ ∃ c ∈ l, (c.linkPrecedence = .primary ∧ i = c.id) ∨
        (c.linkPrecedence = .secondary ∧ c.linkedId = some i) := by
  induction l generalizing acc with
  | nil => simp
  | cons c l ih =>
    rw [List.foldl_cons, ih, mem_rootStep]
    constructor
    · rintro ((h | h) | ⟨c', hc', h⟩)
      · exact Or.inl h
      · exact Or.inr ⟨c, List.mem_cons_self c l, h⟩
      · exact Or.inr ⟨c', List.mem_cons_of_mem c hc', h⟩
    · rintro (h | ⟨c', hc', h⟩)
      · exact Or.inl (Or.inl h)
      · rcases List.mem_cons.mp hc' with rfl | hc'
        · exact Or.inl (Or.inr h)
        · exact Or.inr ⟨c', hc', h⟩

theorem mem_getRootPrimaryIds {l : List Contact} {i : Nat} :
    i ∈ getRootPrimaryIds l ↔
      ∃ c ∈ l, (c.linkPrecedence = .primary ∧ i = c.id) ∨
        (c.linkPrecedence = .secondary ∧ c.linkedId = some i) := by
  unfold getRootPrimaryIds
  rw [mem_foldl_rootStep]
  simp

theorem rootStep_const {t : Nat} {c : Contact}
    (h : (c.linkPrecedence = .primary ∧ c.id = t) ∨
      (c.linkPrecedence = .secondary ∧ c.linkedId = some t)) :
    ∀ acc, t ∈ acc → rootStep acc c = acc := by
  intro acc hacc
  unfold rootStep
  rcases h with ⟨hp, hid⟩ | ⟨hp, hl⟩
  · rw [hp]
    simp only [beq_self_eq_true, if_true, hid]
    rw [if_pos (contains_iff_mem.mpr hacc)]
  · rw [hp, hl]
    simp only [reduceCtorEq, beq_iff_eq, if_false]
    rw [if_pos (contains_iff_mem.mpr hacc)]

theorem getRootPrimaryIds_const {t : Nat} {l : List Contact}
    (h : ∀ c ∈ l, (c.linkPrecedence = .primary ∧ c.id = t) ∨
      (c.linkPrecedence = .secondary ∧ c.linkedId = some t))
    (hne : l ≠ []) :
    getRootPrimaryIds l = [t] := by
  have aux : ∀ (l' : List Contact),
      (∀ c ∈ l', (c.linkPrecedence = .primary ∧ c.id = t) ∨
        (c.linkPrecedence = .secondary ∧ c.linkedId = some t)) →
      l'.foldl rootStep [t] = [t] := by
    intro l'
    induction l' with
    | nil => intro _; rfl
    | cons c l' ih =>
      intro hall
      rw [List.foldl_cons,
        rootStep_const (hall c (List.mem_cons_self c l')) [t] (List.mem_singleton.mpr rfl)]
      exact ih fun c' hc' => hall c' (List.mem_cons_of_mem c hc')
  cases l with
  | nil => exact absurd rfl hne
  | cons c l =>
    unfold getRootPrimaryIds
    rw [List.foldl_cons]
    have h1 : rootStep [] c = [t] := by
      unfold rootStep
      rcases h c (List.mem_cons_self c l) with ⟨hp, hid⟩ | ⟨hp, hl⟩
      · rw [hp]
        simp [hid]
      · rw [hp, hl]
        simp
    rw [h1]
    exact aux l fun c' hc' => h c' (List.mem_cons_of_mem c hc')

/-! ## Effect of the merge write path on the store -/

/-- The combined row-level effect of relinking against every stale primary
in order. -/
def relinkChain (t : Nat) (stales : List Contact) (c : Contact) : Contact :=
  stales.foldl (fun x st => relinkOne st.id t x) c

theorem relinkChain_nil (t : Nat) (c : Contact) : relinkChain t [] c = c := rfl

theorem relinkChain_cons (t : Nat) (st : Contact) (stales : List Contact)
    (c : Contact) :
    relinkChain t (st :: stales) c = relinkChain t stales (relinkOne st.id t c) :=
  rfl

theorem relinkOne_of_not {oldId newId : Nat} {c : Contact}
    (h : ¬(c.linkedId = some oldId ∧ c.deletedAt = none)) :
    relinkOne oldId newId c = c := by
  unfold relinkOne
  rw [if_neg]
  intro hcond
  simp only [Bool.and_eq_true, beq_iff_eq] at hcond
  exact h hcond

theorem relinkOne_hit {oldId newId : Nat} {c : Contact}
    (h1 : c.linkedId = some oldId) (h2 : c.deletedAt = none) :
    relinkOne oldId newId c = { c with linkedId := some newId } := by
  unfold relinkOne
  rw [if_pos]
  simp only [Bool.and_eq_true, beq_iff_eq]
  exact ⟨h1, h2⟩

theorem relinkChain_of_not {t : Nat} {stales : List Contact} {c : Contact}
    (h : ∀ st ∈ stales, ¬(c.linkedId = some st.id ∧ c.deletedAt = none)) :
    relinkChain t stales c = c := by
  induction stales with
  | nil => rfl
  | cons st stales ih =>
    rw [relinkChain_cons, relinkOne_of_not (h st (List.mem_cons_self st stales))]
    exact ih fun st' hst' => h st' (List.mem_cons_of_mem st hst')

theorem relinkChain_fixed {t : Nat} {stales : List Contact} {c : Contact}
    (hne : t ∉ stales.map (·.id)) (hc : c.linkedId = some t) :
    relinkChain t stales c = c := by
  apply relinkChain_of_not
  rintro st hst ⟨hl, -⟩
  rw [hc] at hl
  exact hne (List.mem_map.mpr ⟨st, hst, (Option.some.injEq _ _).mp hl.symm⟩)

theorem relinkChain_hit {t : Nat} {stales : List Contact} {c : Contact} {l : Nat}
    (hl : c.linkedId = some l) (hdel : c.deletedAt = none)
    (hmem : l ∈ stales.map (·.id)) (hnt : t ∉ stales.map (·.id)) :
    relinkChain t stales c = { c with linkedId := some t } := by
  induction stales with
  | nil => simp at hmem
  | cons st stales ih =>
    rw [relinkChain_cons]
    rw [List.map_cons, List.mem_cons] at hmem
    rw [List.map_cons, List.mem_cons] at hnt
    push_neg at hnt
    by_cases hid : st.id = l
    · have h1 : c.linkedId = some st.id := by rw [hl, hid]
      rw [relinkOne_hit h1 hdel]
      exact relinkChain_fixed hnt.2 rfl
    · have hno : relinkOne st.id t c = c := by
        apply relinkOne_of_not
        rintro ⟨h1, -⟩
        rw [hl] at h1
        exact hid (Option.some_inj.mp h1).symm
      rw [hno]
      rcases hmem with h | h
      · exact absurd h.symm hid
      · exact ih h hnt.2

/-- The combined row-level effect of the whole merge write path
(demote all stale primaries, then relink against each in order). -/
def mergeEffect (staleIds : List Nat) (t : Nat) (c : Contact) : Contact :=
  if staleIds.contains c.id then
    { c with linkPrecedence := .secondary, linkedId := some t }
  else if (match c.linkedId with
           | some l => staleIds.contains l
           | none => false) && c.deletedAt == none then
    { c with linkedId := some t }
  else c

theorem relink_fold (stales : List Contact) (t : Nat) (s0 : Store) :
    stales.foldl (fun acc st => relinkSecondaries st.id t acc) s0 =
      { s0 with contacts := s0.contacts.map (relinkChain t stales) } := by
  induction stales generalizing s0 with
  | nil =>
    show s0 = _
    have : s0.contacts.map (relinkChain t []) = s0.contacts := by
      have : relinkChain t [] = fun c => c := rfl
      rw [this, List.map_id']
    rw [this]
  | cons st stales ih =>
    rw [List.foldl_cons, ih]
    unfold relinkSecondaries
    simp only [List.map_map]
    rfl

theorem map_identity_of (l : List Contact) (f : Contact → Contact)
    (h : ∀ c, f c = c) : l.map f = l := by
  induction l with
  | nil => rfl
  | cons c l ih => rw [List.map_cons, h c, ih]

theorem demoteOne_hit {ids : List Nat} {t : Nat} {c : Contact}
    (h : c.id ∈ ids) :
    demoteOne ids t c =
      { c with linkPrecedence := .secondary, linkedId := some t } := by
  unfold demoteOne
  rw [if_pos (contains_iff_mem.mpr h)]

theorem demoteOne_miss {ids : List Nat} {t : Nat} {c : Contact}
    (h : c.id ∉ ids) : demoteOne ids t c = c := by
  unfold demoteOne
  rw [if_neg fun hc => h (contains_iff_mem.mp hc)]

theorem mergeEffect_nil (t : Nat) (c : Contact) : mergeEffect [] t c = c := by
  unfold mergeEffect
  cases hl : c.linkedId <;> simp [hl]

theorem mergeEffect_id (ids : List Nat) (t : Nat) (c : Contact) :
    (mergeEffect ids t c).id = c.id := by
  unfold mergeEffect
  split
  · rfl
  · split
    · rfl
    · rfl

theorem mergeEffect_email (ids : List Nat) (t : Nat) (c : Contact) :
    (mergeEffect ids t c).email = c.email := by
  unfold mergeEffect
  split
  · rfl
  · split
    · rfl
    · rfl

theorem mergeEffect_phoneNumber (ids : List Nat) (t : Nat) (c : Contact) :
    (mergeEffect ids t c).phoneNumber = c.phoneNumber := by
  unfold mergeEffect
  split
  · rfl
  · split
    · rfl
    · rfl

theorem mergeEffect_createdAt (ids : List Nat) (t : Nat) (c : Contact) :
    (mergeEffect ids t c).createdAt = c.createdAt := by
  unfold mergeEffect
  split
  · rfl
  · split
    · rfl
    · rfl

theorem mergeEffect_deletedAt (ids : List Nat) (t : Nat) (c : Contact) :
    (mergeEffect ids t c).deletedAt = c.deletedAt := by
  unfold mergeEffect
  split
  · rfl
  · split
    · rfl
    · rfl

theorem mergeEffect_pointwise {tp : Contact} {stales : List Contact}
    (htp : tp.id ∉ stales.map (·.id)) (c : Contact) :
    relinkChain tp.id stales (demoteOne (stales.map (·.id)) tp.id c) =
      mergeEffect (stales.map (·.id)) tp.id c := by
  by_cases hc : c.id ∈ stales.map (·.id)
  · rw [demoteOne_hit hc]
    rw [relinkChain_fixed htp rfl]
    unfold mergeEffect
    rw [if_pos (contains_iff_mem.mpr hc)]
  · rw [demoteOne_miss hc]
    unfold mergeEffect
    rw [if_neg fun h => hc (contains_iff_mem.mp h)]
    cases hl : c.linkedId with
    | none =>
      rw [if_neg (by simp)]
      apply relinkChain_of_not
      rintro st hst ⟨h1, -⟩
      rw [hl] at h1
      exact Option.noConfusion h1
    | some l =>
      by_cases hlm : l ∈ stales.map (·.id)
      · by_cases hdel : c.deletedAt = none
        · rw [relinkChain_hit hl hdel hlm htp]
          rw [if_pos (by
            simp only [Bool.and_eq_true, beq_iff_eq]
            exact ⟨contains_iff_mem.mpr hlm, hdel⟩)]
        · rw [if_neg (by
            simp only [Bool.and_eq_true, beq_iff_eq]
            rintro ⟨-, h2⟩
            exact hdel h2)]
          apply relinkChain_of_not
          rintro st hst ⟨-, h2⟩
          exact hdel h2
      · rw [if_neg (by
          simp only [Bool.and_eq_true, beq_iff_eq]
          rintro ⟨h1, -⟩
          exact hlm (contains_iff_mem.mp h1))]
        apply relinkChain_of_not
        rintro st hst ⟨h1, -⟩
        rw [hl] at h1
        exact hlm (List.mem_map.mpr ⟨st, hst, (Option.some_inj.mp h1).symm⟩)

theorem mergeClusters_eq {tp : Contact} {stales : List Contact} (s : Store)
    (htp : tp.id ∉ stales.map (·.id)) :
    mergeClusters tp stales s =
      { s with contacts :=
          s.contacts.map (mergeEffect (stales.map (·.id)) tp.id) } := by
  unfold mergeClusters
  by_cases hne : stales.isEmpty
  · rw [if_pos hne]
    have hnil : stales = [] := List.isEmpty_iff.mp hne
    subst hnil
    have h1 : s.contacts.map (mergeEffect ([] : List Nat) tp.id) =
        s.contacts := map_identity_of s.contacts _ (mergeEffect_nil tp.id)
    rw [show List.map (fun x : Contact => x.id) [] = ([] : List Nat) from rfl, h1]
  · rw [if_neg hne]
    rw [relink_fold]
    unfold demotePrimaryToSecondary
    simp only [List.map_map]
    have : (relinkChain tp.id stales ∘ demoteOne (stales.map (·.id)) tp.id) =
        fun c => relinkChain tp.id stales
          (demoteOne (stales.map (·.id)) tp.id c) := rfl
    rw [this, List.map_congr_left fun c _ => mergeEffect_pointwise htp c]

/-! ## Identifier uniqueness helpers -/

theorem eq_of_mem_of_id_eq {l : List Contact} (h : (l.map Contact.id).Nodup)
    {a b : Contact} (ha : a ∈ l) (hb : b ∈ l) (hid : a.id = b.id) : a = b :=
  List.inj_on_of_nodup_map h ha hb hid

theorem nodup_mem_all_eq {l : List Contact} (hnd : l.Nodup) {tp : Contact}
    (htp : tp ∈ l) (hall : ∀ c ∈ l, c = tp) : l = [tp] := by
  cases l with
  | nil => cases htp
  | cons a l =>
    have ha : a = tp := hall a (List.mem_cons_self a l)
    subst ha
    cases l with
    | nil => rfl
    | cons b l =>
      have hb : b = a := hall b (List.mem_cons_of_mem a (List.mem_cons_self b l))
      rw [List.nodup_cons] at hnd
      exact absurd (hb ▸ List.mem_cons_self b l) hnd.1

theorem filter_eq_singleton {l : List Contact} {p : Contact → Bool}
    {tp : Contact} (hnd : l.Nodup) (htp : tp ∈ l) (hp : p tp = true)
    (hall : ∀ c ∈ l, p c = true → c = tp) :
    l.filter p = [tp] :=
  nodup_mem_all_eq (hnd.filter p) (List.mem_filter.mpr ⟨htp, hp⟩)
    fun c hc => hall c (List.mem_filter.mp hc).1 (List.mem_filter.mp hc).2

theorem sortByCreatedAt_singleton (c : Contact) : sortByCreatedAt [c] = [c] := rfl

theorem sorted_head_min {tp : Contact} {rest : List Contact}
    (h : (tp :: rest).Sorted byCreatedAt) :
    ∀ p ∈ tp :: rest, tp.createdAt ≤ p.createdAt := by
  intro p hp
  rcases List.mem_cons.mp hp with rfl | hp'
  · exact Nat.le_refl _
  · exact List.rel_of_sorted_cons h p hp'

/-- The row of the store carrying a given identifier (first match). -/
def rowWithId (i : Nat) (s : Store) : Option Contact :=
  s.contacts.find? (fun c => c.id == i)

theorem find?_id_eq {l : List Contact} (hnd : (l.map Contact.id).Nodup)
    {c : Contact} (hc : c ∈ l) : l.find? (fun x => x.id == c.id) = some c := by
  induction l with
  | nil => cases hc
  | cons a l ih =>
    rw [List.map_cons, List.nodup_cons] at hnd
    rcases List.mem_cons.mp hc with rfl | hc'
    · exact List.find?_cons_of_pos l (beq_self_eq_true c.id)
    · have hne : ¬((a.id == c.id) = true) := by
        intro he
        rw [beq_iff_eq] at he
        refine hnd.1 ?_
        rw [he]
        exact List.mem_map.mpr ⟨c, hc', rfl⟩
      rw [List.find?_cons_of_neg l hne]
      exact ih hnd.2 hc'

theorem rowWithId_eq {s : Store} (hnd : (s.contacts.map Contact.id).Nodup)
    {c : Contact} (hc : c ∈ s.contacts) : rowWithId c.id s = some c :=
  find?_id_eq hnd hc

/-! ## The response builder versus the spec's projection -/

/-- Modelled from the spec (Response Builder): an ordered, deduplicated
sequence, "skipping values already seen". -/
def dedupSkippingSeen (seen : List String) : List String → List String
  | [] => []
  | x :: xs =>
    if x ∈ seen then dedupSkippingSeen seen xs
    else x :: dedupSkippingSeen (x :: seen) xs

/-- Modelled from the spec: the values of the optional fields that are
present (non-null and, by JavaScript truthiness, non-empty), in order. -/
def presentVals (l : List (Option String)) : List String :=
  l.filterMap fun v =>
    match v with
    | some x => if x = "" then none else some x
    | none => none

/-- Adding one known-present string to the accumulated set. -/
def addStr (acc : List String) (x : String) : List String :=
  if acc.contains x then acc else acc ++ [x]

/-- Modelled from the spec (Response Builder, §4.5): the true primary's own
value first when present, followed by each member's value in cluster order,
skipping values already seen; member ids in cluster order. -/
def specProjection (primary : Contact) (secondaries : List Contact) :
    ConsolidatedContact :=
  { primaryContactId := primary.id
    emails := dedupSkippingSeen []
      (presentVals (primary.email :: secondaries.map (·.email)))
    phoneNumbers := dedupSkippingSeen []
      (presentVals (primary.phoneNumber :: secondaries.map (·.phoneNumber)))
    secondaryContactIds := secondaries.map (·.id) }

theorem addStr_mem {acc : List String} {x : String} (h : x ∈ acc) :
    addStr acc x = acc := by
  unfold addStr
  rw [if_pos (contains_iff_mem.mpr h)]

theorem addStr_not_mem {acc : List String} {x : String} (h : x ∉ acc) :
    addStr acc x = acc ++ [x] := by
  unfold addStr
  rw [if_neg fun hc => h (contains_iff_mem.mp hc)]

theorem addVal_eq (acc : List String) (v : Option String) :
    addVal acc v = (presentVals [v]).foldl addStr acc := by
  cases v with
  | none => rfl
  | some x =>
    by_cases hx : x = ""
    · subst hx
      rfl
    · have hpv : presentVals [some x] = [x] := by
        unfold presentVals
        rw [List.filterMap_cons]
        simp [hx]
      rw [hpv, List.foldl_cons, List.foldl_nil]
      rw [show addVal acc (some x) =
        (if (decide (x ≠ "") && !acc.contains x) = true then acc ++ [x]
         else acc) from rfl]
      by_cases hc : x ∈ acc
      · have hcb : acc.contains x = true := contains_iff_mem.mpr hc
        rw [if_neg (by rw [hcb]; simp), addStr_mem hc]
      · have hcb : acc.contains x = false := by
          cases h : acc.contains x with
          | false => rfl
          | true => exact absurd (contains_iff_mem.mp h) hc
        rw [if_pos (by rw [hcb]; simp [hx]), addStr_not_mem hc]

theorem presentVals_cons (v : Option String) (l : List (Option String)) :
    presentVals (v :: l) = presentVals [v] ++ presentVals l := by
  unfold presentVals
  rw [List.filterMap_cons, List.filterMap_cons]
  cases v with
  | none => simp
  | some x =>
    by_cases hx : x = ""
    · simp [hx]
    · simp [hx]

theorem foldl_addVal_eq (l : List (Option String)) (acc : List String) :
    l.foldl addVal acc = (presentVals l).foldl addStr acc := by
  induction l generalizing acc with
  | nil => rfl
  | cons v l ih =>
    rw [List.foldl_cons, ih, presentVals_cons, List.foldl_append, addVal_eq]

theorem dedupSkippingSeen_congr {seen1 seen2 : List String}
    (h : ∀ y, y ∈ seen1 ↔ y ∈ seen2) (l : List String) :
    dedupSkippingSeen seen1 l = dedupSkippingSeen seen2 l := by
  induction l generalizing seen1 seen2 with
  | nil => rfl
  | cons x xs ih =>
    unfold dedupSkippingSeen
    by_cases hx : x ∈ seen1
    · rw [if_pos hx, if_pos ((h x).mp hx)]
      exact ih h
    · rw [if_neg hx, if_neg (fun hx2 => hx ((h x).mpr hx2))]
      refine congrArg (x :: ·) (ih ?_)
      intro y
      rw [List.mem_cons, List.mem_cons, h y]

theorem dedupSkippingSeen_cons {seen : List String} (x : String)
    (xs : List String) :
    dedupSkippingSeen seen (x :: xs) =
      if x ∈ seen then dedupSkippingSeen seen xs
      else x :: dedupSkippingSeen (x :: seen) xs := rfl

theorem dedupSkippingSeen_cons_mem {seen : List String} {x : String}
    {xs : List String} (h : x ∈ seen) :
    dedupSkippingSeen seen (x :: xs) = dedupSkippingSeen seen xs := by
  rw [dedupSkippingSeen_cons, if_pos h]

theorem dedupSkippingSeen_cons_not_mem {seen : List String} {x : String}
    {xs : List String} (h : x ∉ seen) :
    dedupSkippingSeen seen (x :: xs) = x :: dedupSkippingSeen (x :: seen) xs := by
  rw [dedupSkippingSeen_cons, if_neg h]

theorem foldl_addStr (l : List String) (acc : List String) :
    l.foldl addStr acc = acc ++ dedupSkippingSeen acc l := by
  induction l generalizing acc with
  | nil =>
    rw [List.foldl_nil]
    exact (List.append_nil acc).symm
  | cons x xs ih =>
    rw [List.foldl_cons]
    by_cases hx : x ∈ acc
    · rw [addStr_mem hx, ih, dedupSkippingSeen_cons_mem hx]
    · have hseen : dedupSkippingSeen (acc ++ [x]) xs =
          dedupSkippingSeen (x :: acc) xs :=
        dedupSkippingSeen_congr (fun y => by
          rw [List.mem_append, List.mem_singleton, List.mem_cons, or_comm]) xs
      rw [addStr_not_mem hx, ih, dedupSkippingSeen_cons_not_mem hx, hseen,
        List.append_assoc, List.singleton_append]

theorem foldl_pair (l : List Contact) (e p : List String) :
    l.foldl (fun (acc : List String × List String) c =>
      (addVal acc.1 c.email, addVal acc.2 c.phoneNumber)) (e, p) =
    (l.foldl (fun a c => addVal a c.email) e,
     l.foldl (fun a c => addVal a c.phoneNumber) p) := by
  induction l generalizing e p with
  | nil => rfl
  | cons c l ih => rw [List.foldl_cons, List.foldl_cons, List.foldl_cons, ih]

theorem foldl_addVal_field (l : List Contact) (f : Contact → Option String)
    (acc : List String) :
    l.foldl (fun a c => addVal a (f c)) acc = (l.map f).foldl addVal acc := by
  induction l generalizing acc with
  | nil => rfl
  | cons c l ih => rw [List.foldl_cons, List.map_cons, List.foldl_cons, ih]

/-- Claim C6: for every final cluster state, the response's emails list
(and likewise phone numbers) is deduplicated and ordered with the true
primary's own value first when present, followed by each member's value in
the cluster's stored order skipping values already seen;
`secondaryContactIds` is every member's identifier in stored order and
`primaryContactId` is the primary's identifier. -/
theorem buildResponse_matches_spec (p : Contact) (secs : List Contact) :
    (buildResponse p secs).contact = specProjection p secs := by
  have hfield : ∀ (f : Contact → Option String) (v : Option String),
      (secs.foldl (fun a c => addVal a (f c)) (addVal [] v)) =
        dedupSkippingSeen [] (presentVals (v :: secs.map f)) := by
    intro f v
    rw [foldl_addVal_field, ← List.foldl_cons, foldl_addVal_eq, foldl_addStr,
      List.nil_append]
  unfold buildResponse specProjection
  simp only [foldl_pair]
  rw [ConsolidatedContact.mk.injEq]
  exact ⟨rfl, hfield (·.email) p.email, hfield (·.phoneNumber) p.phoneNumber,
    rfl⟩

/-! ## Claim C9: new identity on an empty store -/

/-- Claim C9: for an empty store and a payload with a (truthy) email and no
phone, `identifyContact` creates exactly one contact — a primary carrying
the submitted email — and responds with its id as `primaryContactId`, the
email as the only email, and empty phone and secondary lists. -/
theorem new_identity_on_empty_store (nid clock : Nat) (e : String)
    (he : e ≠ "") :
    identifyContact { email := some e, phoneNumber := none }
        { contacts := [], nextId := nid, now := clock } =
      Except.ok
        ({ contacts := [
             { id := nid, phoneNumber := none, email := some e,
               linkedId := none, linkPrecedence := .primary,
               createdAt := clock, deletedAt := none }],
           nextId := nid + 1, now := clock },
         { contact := { primaryContactId := nid, emails := [e],
                        phoneNumbers := [], secondaryContactIds := [] } }) := by
  have ht : truthy (some e) = true := by
    simp [truthy, he]
  unfold identifyContact findContactsByEmailOrPhone
  simp only [ht, Bool.true_or, if_true, List.filter_nil]
  rw [show sortByCreatedAt [] = [] from rfl]
  simp only [List.isEmpty_nil, if_true]
  unfold createPrimaryContact buildResponse
  simp only [List.foldl_nil]
  rw [show addVal [] (some e) = [e] by unfold addVal; simp [he]]
  rfl

/-- Witness for C9 at a concrete input. -/
theorem new_identity_on_empty_store_witness :
    ("a@x.com" : String) ≠ "" ∧
    identifyContact { email := some "a@x.com", phoneNumber := none }
        { contacts := [], nextId := 1, now := 5 } =
      Except.ok
        ({ contacts := [
             { id := 1, phoneNumber := none, email := some "a@x.com",
               linkedId := none, linkPrecedence := .primary,
               createdAt := 5, deletedAt := none }],
           nextId := 2, now := 5 },
         { contact := { primaryContactId := 1, emails := ["a@x.com"],
                        phoneNumbers := [], secondaryContactIds := [] } }) :=
  ⟨by decide, new_identity_on_empty_store 1 5 "a@x.com" (by decide)⟩

/-! ## Claim C10: the core does not enforce the at-least-one-field rule -/

/-- Claim C10: invoked with neither email nor phone (bypassing boundary
validation), the match lookup returns the empty list for every store
without consulting it, the call does not fail, and a primary contact with
both fields null is created — violating the at-least-one-of-email/phone
data invariant. -/
theorem identify_without_fields (s : Store) :
    findContactsByEmailOrPhone none none s = [] ∧
    identifyContact { email := none, phoneNumber := none } s =
      Except.ok
        ({ s with
            contacts := s.contacts ++ [
              { id := s.nextId, phoneNumber := none, email := none,
                linkedId := none, linkPrecedence := .primary,
                createdAt := s.now, deletedAt := none }],
            nextId := s.nextId + 1 },
         { contact := { primaryContactId := s.nextId, emails := [],
                        phoneNumbers := [], secondaryContactIds := [] } }) :=
  ⟨rfl, rfl⟩

/-! ## Claim C2: the primary selector and timestamp ties -/

/-- Two representatives with identical `createdAt`; the one with the higher
identifier sits first in the underlying row order. -/
def tieA : Contact :=
  { id := 2, phoneNumber := none, email := some "a@x.com", linkedId := none,
    linkPrecedence := .primary, createdAt := 5, deletedAt := none }

def tieB : Contact :=
  { id := 1, phoneNumber := some "111", email := none, linkedId := none,
    linkPrecedence := .primary, createdAt := 5, deletedAt := none }

def tieStore : Store := { contacts := [tieA, tieB], nextId := 3, now := 10 }

/-- Claim C2 counterexample: two implicated representatives have identical
created-at timestamps, yet the contact with the HIGHER identifier (first in
the fetched row order) is chosen as true primary — the selector sorts by
created-at only and never applies an identifier tie-break. -/
theorem primary_selector_tiebreak_counterexample :
    tieA.createdAt = tieB.createdAt ∧ tieB.id < tieA.id ∧
    tieA.linkPrecedence = .primary ∧ tieB.linkPrecedence = .primary ∧
    clusterPrimaries (findContactCluster
      (getRootPrimaryIds
        (findContactsByEmailOrPhone (some "a@x.com") (some "111") tieStore))
      tieStore) = [tieA, tieB] ∧
    (∃ s' r,
      identifyContact { email := some "a@x.com", phoneNumber := some "111" }
          tieStore = Except.ok (s', r) ∧
        r.contact.primaryContactId = tieA.id ∧
        r.contact.primaryContactId ≠ tieB.id) := by
  refine ⟨rfl, by decide, rfl, rfl, by decide, ?_⟩
  exact ⟨_, _, rfl, rfl, by decide⟩

/-- Claim C2 (amended): the Primary Selector sorts the implicated
representatives ascending by created-at only (a stable sort over the
fetched cluster order), so the chosen true primary has minimal created-at
among all implicated representatives; with identical timestamps the choice
follows the fetched row order, not the lowest identifier. -/
theorem primary_selector_sorted_by_createdAt
    (directMatches : List Contact) (s : Store) (tp : Contact)
    (rest : List Contact)
    (h : clusterPrimaries
      (findContactCluster (getRootPrimaryIds directMatches) s) = tp :: rest) :
    List.Perm (tp :: rest)
      ((findContactCluster (getRootPrimaryIds directMatches) s).filter
        (fun c => c.linkPrecedence == .primary)) ∧
    (tp :: rest).Sorted byCreatedAt ∧
    (∀ p ∈ tp :: rest, tp.createdAt ≤ p.createdAt) := by
  refine ⟨?_, ?_, ?_⟩
  · rw [← h]
    exact sortByCreatedAt_perm _
  · rw [← h]
    exact sortByCreatedAt_sorted _
  · exact sorted_head_min (h ▸ sortByCreatedAt_sorted _)

/-- Witness for the amended C2 at a concrete input. -/
theorem primary_selector_sorted_by_createdAt_witness :
    List.Perm [tieA, tieB]
      ((findContactCluster (getRootPrimaryIds [tieA, tieB]) tieStore).filter
        (fun c => c.linkPrecedence == .primary)) ∧
    ([tieA, tieB]).Sorted byCreatedAt ∧
    (∀ p ∈ [tieA, tieB], tieA.createdAt ≤ p.createdAt) := by
  have h : clusterPrimaries
      (findContactCluster (getRootPrimaryIds [tieA, tieB]) tieStore) =
        tieA :: [tieB] := by decide
  exact primary_selector_sorted_by_createdAt [tieA, tieB] tieStore tieA [tieB] h

/-! ## Claim C7: corrupt members do not surface a consistency error -/

/-- A member whose `linkedId` dangles (no row with id 50 exists). -/
def corruptM : Contact :=
  { id := 1, phoneNumber := none, email := some "a@x.com", linkedId := some 50,
    linkPrecedence := .secondary, createdAt := 1, deletedAt := none }

/-- A healthy primary matched by the same payload. -/
def healthyP : Contact :=
  { id := 2, phoneNumber := some "111", email := none, linkedId := none,
    linkPrecedence := .primary, createdAt := 2, deletedAt := none }

def corruptStore : Store :=
  { contacts := [corruptM, healthyP], nextId := 3, now := 10 }

/-- Claim C7 counterexample: the payload matches `corruptM`, a Member with
no valid Representative link-target (id 50 exists nowhere), yet the
identify operation completes successfully — no fatal consistency error is
surfaced; the corruption is silently tolerated. -/
theorem corrupt_member_no_error_counterexample :
    corruptM.linkPrecedence = .secondary ∧
    (∀ c ∈ corruptStore.contacts, some c.id ≠ corruptM.linkedId) ∧
    corruptM ∈ findContactsByEmailOrPhone (some "a@x.com") (some "111")
      corruptStore ∧
    (∃ s' r,
      identifyContact { email := some "a@x.com", phoneNumber := some "111" }
          corruptStore = Except.ok (s', r)) := by
  refine ⟨rfl, by decide, by decide, ?_⟩
  exact ⟨_, _, rfl⟩

/-- Claim C7 (amended): an error is surfaced only in the narrower case
where the matched contacts resolve to no representative at all — when the
fetched cluster contains no primary, the source dereferences `undefined`
(`truePrimary.id`) and the operation fails instead of returning a
response.  A corrupt Member matched alongside a valid representative is
processed without any consistency check (see the counterexample). -/
theorem merge_fails_without_representative
    (s : Store) (em ph : Option String)
    (hne : findContactsByEmailOrPhone em ph s ≠ [])
    (hnop : clusterPrimaries (findContactCluster
      (getRootPrimaryIds (findContactsByEmailOrPhone em ph s)) s) = []) :
    identifyContact { email := em, phoneNumber := ph } s =
      Except.error "TypeError: cannot read property id of undefined" := by
  have hie : (findContactsByEmailOrPhone em ph s).isEmpty = false := by
    cases hl : findContactsByEmailOrPhone em ph s with
    | nil => exact absurd hl hne
    | cons a l => rfl
  unfold identifyContact mergeAndRespond
  simp only [hie, Bool.false_eq_true, if_false, hnop]

/-- A store whose only row is a corrupt member with a dangling target. -/
def corruptOnlyStore : Store :=
  { contacts := [corruptM], nextId := 3, now := 10 }

/-- Witness for the amended C7 at a concrete input. -/
theorem merge_fails_without_representative_witness :
    identifyContact { email := some "a@x.com", phoneNumber := none }
        corruptOnlyStore =
      Except.error "TypeError: cannot read property id of undefined" :=
  merge_fails_without_representative corruptOnlyStore (some "a@x.com") none
    (by decide) (by decide)

/-! ## The merge path: supporting lemmas -/

theorem mem_clusterPrimaries {l : List Contact} {c : Contact} :
    c ∈ clusterPrimaries l ↔ c ∈ l ∧ c.linkPrecedence = .primary := by
  unfold clusterPrimaries
  rw [mem_sortByCreatedAt, List.mem_filter, beq_iff_eq]

theorem clusterPrimaries_sub {l : List Contact} {tp : Contact}
    {stales : List Contact} (h : clusterPrimaries l = tp :: stales) :
    ∀ c ∈ tp :: stales, c ∈ l ∧ c.linkPrecedence = .primary := by
  intro c hc
  exact mem_clusterPrimaries.mp (h ▸ hc)

theorem filter_ids_nodup {l : List Contact} (h : (l.map Contact.id).Nodup)
    (p : Contact → Bool) : ((l.filter p).map Contact.id).Nodup :=
  (List.Sublist.map Contact.id (List.filter_sublist l : (l.filter p).Sublist l)).nodup h

theorem sort_ids_nodup {l : List Contact} (h : (l.map Contact.id).Nodup) :
    ((sortByCreatedAt l).map Contact.id).Nodup :=
  (((sortByCreatedAt_perm l).map Contact.id).nodup_iff).mpr h

theorem cluster_ids_nodup {s : Store} (h : (s.contacts.map Contact.id).Nodup)
    (ids : List Nat) :
    ((findContactCluster ids s).map Contact.id).Nodup :=
  sort_ids_nodup (filter_ids_nodup h _)

theorem clusterPrimaries_ids_nodup {l : List Contact}
    (h : (l.map Contact.id).Nodup) :
    ((clusterPrimaries l).map Contact.id).Nodup :=
  sort_ids_nodup (filter_ids_nodup h _)

theorem head_id_not_in_tail {tp : Contact} {stales : List Contact}
    (h : ((tp :: stales).map Contact.id).Nodup) :
    tp.id ∉ stales.map (·.id) := by
  rw [List.map_cons, List.nodup_cons] at h
  exact h.1

/-- A contact untouched by the merge write path: not a stale primary and
with no link target (a representative). -/
theorem mergeEffect_none_link {ids : List Nat} {t : Nat} {c : Contact}
    (h1 : c.id ∉ ids) (h2 : c.linkedId = none) : mergeEffect ids t c = c := by
  unfold mergeEffect
  rw [if_neg fun hc => h1 (contains_iff_mem.mp hc), if_neg (by
    rw [h2]
    simp)]

theorem mergeEffect_hit {ids : List Nat} {t : Nat} {c : Contact}
    (h : c.id ∈ ids) :
    mergeEffect ids t c =
      { c with linkPrecedence := .secondary, linkedId := some t } := by
  unfold mergeEffect
  rw [if_pos (contains_iff_mem.mpr h)]

/-- Exhaustive description of the merge write path's effect on one row. -/
theorem mergeEffect_cases (ids : List Nat) (t : Nat) (c : Contact) :
    (c.id ∈ ids ∧ mergeEffect ids t c =
      { c with linkPrecedence := .secondary, linkedId := some t }) ∨
    (c.id ∉ ids ∧ (∃ l, c.linkedId = some l ∧ l ∈ ids) ∧ c.deletedAt = none ∧
      mergeEffect ids t c = { c with linkedId := some t }) ∨
    (c.id ∉ ids ∧ ¬((∃ l, c.linkedId = some l ∧ l ∈ ids) ∧ c.deletedAt = none) ∧
      mergeEffect ids t c = c) := by
  by_cases h1 : c.id ∈ ids
  · exact Or.inl ⟨h1, mergeEffect_hit h1⟩
  · by_cases h2 : (∃ l, c.linkedId = some l ∧ l ∈ ids) ∧ c.deletedAt = none
    · obtain ⟨⟨l, hl, hin⟩, hdel⟩ := h2
      refine Or.inr (Or.inl ⟨h1, ⟨l, hl, hin⟩, hdel, ?_⟩)
      unfold mergeEffect
      rw [if_neg fun hc => h1 (contains_iff_mem.mp hc), if_pos (by
        rw [hl, hdel]
        simp [hin])]
    · refine Or.inr (Or.inr ⟨h1, h2, ?_⟩)
      unfold mergeEffect
      rw [if_neg fun hc => h1 (contains_iff_mem.mp hc), if_neg (by
        intro hc
        simp only [Bool.and_eq_true, beq_iff_eq] at hc
        refine h2 ⟨?_, hc.2⟩
        cases hl : c.linkedId with
        | none => rw [hl] at hc; simp at hc
        | some l =>
          rw [hl] at hc
          exact ⟨l, rfl, contains_iff_mem.mp hc.1⟩)]

theorem mergeClusters_contacts {tp : Contact} {stales : List Contact}
    {s : Store} (htp : tp.id ∉ stales.map (·.id)) :
    (mergeClusters tp stales s).contacts =
      s.contacts.map (mergeEffect (stales.map (·.id)) tp.id) := by
  rw [mergeClusters_eq s htp]

theorem mergeClusters_nextId {tp : Contact} {stales : List Contact}
    {s : Store} (htp : tp.id ∉ stales.map (·.id)) :
    (mergeClusters tp stales s).nextId = s.nextId := by
  rw [mergeClusters_eq s htp]

theorem mergeClusters_now {tp : Contact} {stales : List Contact}
    {s : Store} (htp : tp.id ∉ stales.map (·.id)) :
    (mergeClusters tp stales s).now = s.now := by
  rw [mergeClusters_eq s htp]

theorem mergeClusters_ids {tp : Contact} {stales : List Contact} {s : Store}
    (htp : tp.id ∉ stales.map (·.id)) :
    (mergeClusters tp stales s).contacts.map Contact.id =
      s.contacts.map Contact.id := by
  rw [mergeClusters_contacts htp, List.map_map]
  exact List.map_congr_left fun c _ => mergeEffect_id _ _ c

/-- The row inserted by `createSecondaryContact`. -/
def newSecondaryRow (tpId : Nat) (em ph : Option String) (s1 : Store) :
    Contact :=
  { id := s1.nextId, phoneNumber := ph, email := em, linkedId := some tpId,
    linkPrecedence := .secondary, createdAt := s1.now, deletedAt := none }

theorem mergedStore_eq (tp : Contact) (stales : List Contact)
    (em ph : Option String) (s : Store) :
    mergedStore tp stales em ph s =
      if (isNewEmail em (findContactCluster [tp.id] (mergeClusters tp stales s)) ||
          isNewPhone ph (findContactCluster [tp.id] (mergeClusters tp stales s))) = true
      then (createSecondaryContact tp.id em ph (mergeClusters tp stales s)).2
      else mergeClusters tp stales s := rfl

theorem mergeOutcome_eq (tp : Contact) (stales : List Contact)
    (em ph : Option String) (s : Store) :
    mergeOutcome tp stales em ph s =
      match (findContactCluster [tp.id] (mergedStore tp stales em ph s)).find?
          (fun c => c.id == tp.id) with
      | none => Except.error "TypeError: finalPrimary undefined"
      | some fp =>
        Except.ok (mergedStore tp stales em ph s,
          buildResponse fp
            ((findContactCluster [tp.id]
              (mergedStore tp stales em ph s)).filter
              (fun c => c.linkPrecedence == .secondary))) := rfl

theorem mergedStore_contacts_cases (tp : Contact) (stales : List Contact)
    (em ph : Option String) (s : Store) :
    (mergedStore tp stales em ph s).contacts =
        (mergeClusters tp stales s).contacts ∨
    (mergedStore tp stales em ph s).contacts =
        (mergeClusters tp stales s).contacts ++
          [newSecondaryRow tp.id em ph (mergeClusters tp stales s)] := by
  rw [mergedStore_eq]
  by_cases h : (isNewEmail em (findContactCluster [tp.id] (mergeClusters tp stales s)) ||
      isNewPhone ph (findContactCluster [tp.id] (mergeClusters tp stales s))) = true
  · right
    rw [if_pos h]
    rfl
  · left
    rw [if_neg h]

theorem mergedStore_mem_intro {tp : Contact} {stales : List Contact}
    {em ph : Option String} {s : Store} {c : Contact}
    (h : c ∈ (mergeClusters tp stales s).contacts) :
    c ∈ (mergedStore tp stales em ph s).contacts := by
  rcases mergedStore_contacts_cases tp stales em ph s with hh | hh <;> rw [hh]
  · exact h
  · exact List.mem_append_left _ h

theorem mergedStore_mem_elim {tp : Contact} {stales : List Contact}
    {em ph : Option String} {s : Store} {c : Contact}
    (h : c ∈ (mergedStore tp stales em ph s).contacts) :
    c ∈ (mergeClusters tp stales s).contacts ∨
      c = newSecondaryRow tp.id em ph (mergeClusters tp stales s) := by
  rcases mergedStore_contacts_cases tp stales em ph s with hh | hh
  · rw [hh] at h
    exact Or.inl h
  · rw [hh] at h
    rcases List.mem_append.mp h with h' | h'
    · exact Or.inl h'
    · exact Or.inr (List.mem_singleton.mp h')

theorem nextId_not_in_ids {s : Store}
    (hlt : ∀ c ∈ s.contacts, c.id < s.nextId) :
    s.nextId ∉ s.contacts.map Contact.id := by
  intro hmem
  obtain ⟨c, hc, hcid⟩ := List.mem_map.mp hmem
  exact absurd (hcid ▸ hlt c hc) (Nat.lt_irrefl s.nextId)

theorem mergedStore_ids_nodup {tp : Contact} {stales : List Contact}
    {em ph : Option String} {s : Store}
    (htp : tp.id ∉ stales.map (·.id))
    (hnd : (s.contacts.map Contact.id).Nodup)
    (hlt : ∀ c ∈ s.contacts, c.id < s.nextId) :
    ((mergedStore tp stales em ph s).contacts.map Contact.id).Nodup := by
  rcases mergedStore_contacts_cases tp stales em ph s with h | h <;> rw [h]
  · rw [mergeClusters_ids htp]
    exact hnd
  · rw [List.map_append, mergeClusters_ids htp]
    rw [show List.map Contact.id
      [newSecondaryRow tp.id em ph (mergeClusters tp stales s)] =
        [(mergeClusters tp stales s).nextId] from rfl]
    rw [mergeClusters_nextId htp, ← List.concat_eq_append]
    exact List.Nodup.concat (nextId_not_in_ids hlt) hnd

theorem tp_mem_mergeClusters {tp : Contact} {stales : List Contact}
    {s : Store} (htp : tp.id ∉ stales.map (·.id))
    (hlink : tp.linkedId = none) (hmem : tp ∈ s.contacts) :
    tp ∈ (mergeClusters tp stales s).contacts := by
  rw [mergeClusters_contacts htp]
  exact List.mem_map.mpr ⟨tp, hmem, mergeEffect_none_link htp hlink⟩

/-- When the cluster has at least one primary, `mergeOutcome` succeeds: the
reloaded final cluster always contains the (unchanged) true primary. -/
theorem mergeOutcome_ok (tp : Contact) (stales : List Contact)
    (em ph : Option String) (s : Store)
    (hnd : (s.contacts.map Contact.id).Nodup)
    (hlt : ∀ c ∈ s.contacts, c.id < s.nextId)
    (htpmem : tp ∈ s.contacts) (hdel : tp.deletedAt = none)
    (hlink : tp.linkedId = none) (htp : tp.id ∉ stales.map (·.id)) :
    mergeOutcome tp stales em ph s =
      Except.ok (mergedStore tp stales em ph s,
        buildResponse tp
          ((findContactCluster [tp.id] (mergedStore tp stales em ph s)).filter
            (fun c => c.linkPrecedence == .secondary))) := by
  have htps2 : tp ∈ (mergedStore tp stales em ph s).contacts :=
    mergedStore_mem_intro (tp_mem_mergeClusters htp hlink htpmem)
  have hfin : tp ∈ findContactCluster [tp.id] (mergedStore tp stales em ph s) :=
    mem_findContactCluster.mpr
      ⟨htps2, hdel, Or.inl (List.mem_singleton.mpr rfl)⟩
  have hndf : ((findContactCluster [tp.id]
      (mergedStore tp stales em ph s)).map Contact.id).Nodup :=
    cluster_ids_nodup (mergedStore_ids_nodup htp hnd hlt) _
  have hfind : (findContactCluster [tp.id]
      (mergedStore tp stales em ph s)).find? (fun c => c.id == tp.id) =
        some tp := find?_id_eq hndf hfin
  rw [mergeOutcome_eq, hfind]

theorem identify_matched {em ph : Option String} {s : Store}
    (hne : findContactsByEmailOrPhone em ph s ≠ []) :
    identifyContact { email := em, phoneNumber := ph } s =
      mergeAndRespond (findContactsByEmailOrPhone em ph s) em ph s := by
  have hie : (findContactsByEmailOrPhone em ph s).isEmpty = false := by
    cases hl : findContactsByEmailOrPhone em ph s with
    | nil => exact absurd hl hne
    | cons a l => rfl
  unfold identifyContact
  simp only [hie, Bool.false_eq_true, if_false]

theorem mergeAndRespond_cons {dm : List Contact} {em ph : Option String}
    {s : Store} {tp : Contact} {stales : List Contact}
    (h : clusterPrimaries (findContactCluster (getRootPrimaryIds dm) s) =
      tp :: stales) :
    mergeAndRespond dm em ph s = mergeOutcome tp stales em ph s := by
  unfold mergeAndRespond
  simp only [h]

theorem clusterPrimaries_sorted (l : List Contact) :
    (clusterPrimaries l).Sorted byCreatedAt :=
  sortByCreatedAt_sorted _

theorem buildResponse_primaryContactId (p : Contact) (secs : List Contact) :
    (buildResponse p secs).contact.primaryContactId = p.id := rfl

theorem buildResponse_secondaryContactIds (p : Contact) (secs : List Contact) :
    (buildResponse p secs).contact.secondaryContactIds = secs.map (·.id) := rfl

/-- Facts about the chosen true primary and the stale primaries, extracted
from the data-model invariants. -/
theorem truePrimary_facts {s : Store} {pids : List Nat} {tp : Contact}
    {stales : List Contact} (hwf : WellFormed s)
    (hp : clusterPrimaries (findContactCluster pids s) = tp :: stales) :
    tp ∈ s.contacts ∧ tp.linkPrecedence = .primary ∧ tp.deletedAt = none ∧
      tp.linkedId = none ∧ tp.id ∉ stales.map (·.id) ∧
      (∀ q ∈ stales,
        q ∈ s.contacts ∧ q.linkPrecedence = .primary ∧ q.deletedAt = none) := by
  have hsub := clusterPrimaries_sub hp
  obtain ⟨htpc, htpp⟩ := hsub tp (List.mem_cons_self tp stales)
  obtain ⟨htps, htpd, -⟩ := mem_findContactCluster.mp htpc
  have hnd : (((tp :: stales)).map Contact.id).Nodup := by
    rw [← hp]
    exact clusterPrimaries_ids_nodup (cluster_ids_nodup hwf.nodupIds pids)
  exact ⟨htps, htpp, htpd, hwf.primaryNoLink tp htps htpp,
    head_id_not_in_tail hnd, fun q hq => by
      obtain ⟨hqc, hqp⟩ := hsub q (List.mem_cons_of_mem tp hq)
      obtain ⟨hqs, hqd, -⟩ := mem_findContactCluster.mp hqc
      exact ⟨hqs, hqp, hqd⟩⟩

/-- When at least one contact matched and the store is well formed, the
fetched cluster always contains a representative. -/
theorem clusterPrimaries_matches_ne_nil {s : Store} {em ph : Option String}
    (hwf : WellFormed s) (hne : findContactsByEmailOrPhone em ph s ≠ []) :
    clusterPrimaries (findContactCluster
      (getRootPrimaryIds (findContactsByEmailOrPhone em ph s)) s) ≠ [] := by
  obtain ⟨c, hc⟩ := List.exists_mem_of_ne_nil _ hne
  obtain ⟨-, hcs, hcdel, -⟩ := mem_findContactsByEmailOrPhone.mp hc
  cases hprec : c.linkPrecedence with
  | primary =>
    have hcid : c.id ∈
        getRootPrimaryIds (findContactsByEmailOrPhone em ph s) :=
      mem_getRootPrimaryIds.mpr ⟨c, hc, Or.inl ⟨hprec, rfl⟩⟩
    exact List.ne_nil_of_mem (mem_clusterPrimaries.mpr
      ⟨mem_findContactCluster.mpr ⟨hcs, hcdel, Or.inl hcid⟩, hprec⟩)
  | secondary =>
    obtain ⟨p, hps, hlink, hpp, hpdel⟩ := hwf.secondaryLink c hcs hprec hcdel
    have hpid : p.id ∈
        getRootPrimaryIds (findContactsByEmailOrPhone em ph s) :=
      mem_getRootPrimaryIds.mpr ⟨c, hc, Or.inr ⟨hprec, hlink⟩⟩
    exact List.ne_nil_of_mem (mem_clusterPrimaries.mpr
      ⟨mem_findContactCluster.mpr ⟨hps, hpdel, Or.inl hpid⟩, hpp⟩)

theorem isNewEmail_iff (em : Option String) (cluster : List Contact) :
    isNewEmail em cluster = true ↔
      ∃ e, em = some e ∧ e ≠ "" ∧ e ∉ clusterEmailsOf cluster := by
  cases em with
  | none =>
    simp [isNewEmail]
  | some e =>
    unfold isNewEmail
    simp only [Bool.and_eq_true, decide_eq_true_eq, Bool.not_eq_eq_eq_not,
      Bool.not_true, Option.some.injEq]
    constructor
    · rintro ⟨h1, h2⟩
      exact ⟨e, rfl, h1, fun hmem => by
        rw [contains_iff_mem.mpr hmem] at h2
        exact Bool.noConfusion h2⟩
    · rintro ⟨e', he', h1, h2⟩
      subst he'
      refine ⟨h1, ?_⟩
      cases hc : (clusterEmailsOf cluster).contains e with
      | false => rfl
      | true => exact absurd (contains_iff_mem.mp hc) h2

theorem isNewPhone_iff (ph : Option String) (cluster : List Contact) :
    isNewPhone ph cluster = true ↔
      ∃ p, ph = some p ∧ p ≠ "" ∧ p ∉ clusterPhonesOf cluster := by
  cases ph with
  | none =>
    simp [isNewPhone]
  | some p =>
    unfold isNewPhone
    simp only [Bool.and_eq_true, decide_eq_true_eq, Bool.not_eq_eq_eq_not,
      Bool.not_true, Option.some.injEq]
    constructor
    · rintro ⟨h1, h2⟩
      exact ⟨p, rfl, h1, fun hmem => by
        rw [contains_iff_mem.mpr hmem] at h2
        exact Bool.noConfusion h2⟩
    · rintro ⟨p', hp', h1, h2⟩
      subst hp'
      refine ⟨h1, ?_⟩
      cases hc : (clusterPhonesOf cluster).contains p with
      | false => rfl
      | true => exact absurd (contains_iff_mem.mp hc) h2

/-! ## Claim C1: exactly one representative survives a merge -/

/-- Claim C1: when the submitted facts implicate two or more
representatives, the identify operation succeeds and afterwards the
earliest-created representative `tp` survives unchanged, every other
implicated representative is demoted to a member whose link target is
`tp`'s identifier, the response's `primaryContactId` is `tp.id`, and each
demoted identifier appears in `secondaryContactIds`. -/
theorem merge_single_survivor
    (s : Store) (em ph : Option String) (tp : Contact) (stales : List Contact)
    (hwf : WellFormed s)
    (hne : findContactsByEmailOrPhone em ph s ≠ [])
    (hp : clusterPrimaries (findContactCluster
      (getRootPrimaryIds (findContactsByEmailOrPhone em ph s)) s) =
        tp :: stales)
    (htwo : stales ≠ []) :
    ∃ s' r, identifyContact { email := em, phoneNumber := ph } s =
        Except.ok (s', r) ∧
      rowWithId tp.id s' = some tp ∧
      tp.linkPrecedence = .primary ∧
      (∀ q ∈ tp :: stales, tp.createdAt ≤ q.createdAt) ∧
      (∀ q ∈ stales, rowWithId q.id s' =
        some { q with linkPrecedence := .secondary, linkedId := some tp.id }) ∧
      r.contact.primaryContactId = tp.id ∧
      (∀ q ∈ stales, q.id ∈ r.contact.secondaryContactIds) := by
  obtain ⟨htps, htpp, htpd, htpl, htpid, hstf⟩ := truePrimary_facts hwf hp
  have heq : identifyContact { email := em, phoneNumber := ph } s =
      mergeOutcome tp stales em ph s :=
    (identify_matched hne).trans (mergeAndRespond_cons hp)
  have hok := mergeOutcome_ok tp stales em ph s hwf.nodupIds hwf.idLt htps
    htpd htpl htpid
  have hndS2 := @mergedStore_ids_nodup tp stales em ph s htpid hwf.nodupIds
    hwf.idLt
  have htpS2 : tp ∈ (mergedStore tp stales em ph s).contacts :=
    mergedStore_mem_intro (tp_mem_mergeClusters htpid htpl htps)
  -- the demoted row of a stale primary in the merged store
  have hdem : ∀ q ∈ stales,
      ({ q with linkPrecedence := .secondary, linkedId := some tp.id } :
        Contact) ∈ (mergedStore tp stales em ph s).contacts := by
    intro q hq
    refine mergedStore_mem_intro ?_
    rw [mergeClusters_contacts htpid]
    have hmem : mergeEffect (stales.map (·.id)) tp.id q =
        { q with linkPrecedence := .secondary, linkedId := some tp.id } :=
      mergeEffect_hit (List.mem_map.mpr ⟨q, hq, rfl⟩)
    exact hmem ▸ List.mem_map_of_mem _ (hstf q hq).1
  refine ⟨mergedStore tp stales em ph s, _, heq.trans hok, ?_, htpp, ?_, ?_,
    buildResponse_primaryContactId _ _, ?_⟩
  · exact find?_id_eq hndS2 htpS2
  · exact sorted_head_min (hp ▸ clusterPrimaries_sorted _)
  · intro q hq
    exact find?_id_eq hndS2 (hdem q hq)
  · intro q hq
    rw [buildResponse_secondaryContactIds]
    have hmemf : ({ q with linkPrecedence := .secondary, linkedId := some tp.id } : Contact) ∈
        findContactCluster [tp.id] (mergedStore tp stales em ph s) :=
      mem_findContactCluster.mpr ⟨hdem q hq, (hstf q hq).2.2,
        Or.inr ⟨tp.id, rfl, List.mem_singleton.mpr rfl⟩⟩
    exact List.mem_map.mpr ⟨_, List.mem_filter.mpr ⟨hmemf, rfl⟩, rfl⟩

/-- An example store with two independent representatives and a member:
`exA` (oldest, email only), `exB` (newer, phone "111"), `exC` a member of
`exB`. -/
def exA : Contact :=
  { id := 1, phoneNumber := none, email := some "a@x.com", linkedId := none,
    linkPrecedence := .primary, createdAt := 1, deletedAt := none }

def exB : Contact :=
  { id := 2, phoneNumber := some "111", email := none, linkedId := none,
    linkPrecedence := .primary, createdAt := 2, deletedAt := none }

def exC : Contact :=
  { id := 3, phoneNumber := some "111", email := some "c@x.com",
    linkedId := some 2, linkPrecedence := .secondary, createdAt := 3,
    deletedAt := none }

def exStore : Store := { contacts := [exA, exB, exC], nextId := 4, now := 10 }

/-- Witness for C1 at a concrete input. -/
theorem merge_single_survivor_witness :
    ∃ s' r, identifyContact
        { email := some "a@x.com", phoneNumber := some "111" } exStore =
        Except.ok (s', r) ∧
      rowWithId exA.id s' = some exA ∧
      exA.linkPrecedence = .primary ∧
      (∀ q ∈ exA :: [exB], exA.createdAt ≤ q.createdAt) ∧
      (∀ q ∈ [exB], rowWithId q.id s' =
        some { q with linkPrecedence := .secondary, linkedId := some exA.id }) ∧
      r.contact.primaryContactId = exA.id ∧
      (∀ q ∈ [exB], q.id ∈ r.contact.secondaryContactIds) :=
  merge_single_survivor exStore (some "a@x.com") (some "111") exA [exB]
    ⟨by decide, by decide, by decide, by decide⟩ (by decide) (by decide)
    (by decide)

/-! ## Claim C5: no member is left pointing at a demoted record -/

/-- Claim C5: after a merge, no non-deleted member in the resulting store
links to any demoted (stale) primary — every non-deleted row that pointed
at a stale primary has been rewritten to point at the surviving true
primary `tp` directly, so member-to-member chains are never created. -/
theorem members_never_point_at_demoted
    (s : Store) (em ph : Option String) (tp : Contact) (stales : List Contact)
    (hwf : WellFormed s)
    (hne : findContactsByEmailOrPhone em ph s ≠ [])
    (hp : clusterPrimaries (findContactCluster
      (getRootPrimaryIds (findContactsByEmailOrPhone em ph s)) s) =
        tp :: stales) :
    ∃ s' r, identifyContact { email := em, phoneNumber := ph } s =
        Except.ok (s', r) ∧
      (∀ c' ∈ s'.contacts, c'.deletedAt = none →
        c'.linkPrecedence = .secondary →
        ∀ q ∈ stales, c'.linkedId ≠ some q.id) ∧
      (∀ c ∈ s.contacts, c.deletedAt = none →
        ∀ q ∈ stales, c.linkedId = some q.id →
        rowWithId c.id s' = some { c with linkedId := some tp.id }) := by
  obtain ⟨htps, htpp, htpd, htpl, htpid, hstf⟩ := truePrimary_facts hwf hp
  have heq : identifyContact { email := em, phoneNumber := ph } s =
      mergeOutcome tp stales em ph s :=
    (identify_matched hne).trans (mergeAndRespond_cons hp)
  have hok := mergeOutcome_ok tp stales em ph s hwf.nodupIds hwf.idLt htps
    htpd htpl htpid
  have hndS2 := @mergedStore_ids_nodup tp stales em ph s htpid hwf.nodupIds
    hwf.idLt
  refine ⟨mergedStore tp stales em ph s, _, heq.trans hok, ?_, ?_⟩
  · -- no non-deleted member links to a stale primary
    intro c' hc' hdel hsec q hq hlq
    have hqid : q.id ∈ stales.map (·.id) := List.mem_map.mpr ⟨q, hq, rfl⟩
    have hqtp : q.id ≠ tp.id := fun h => htpid (h ▸ hqid)
    rcases mergedStore_mem_elim hc' with hm | hm
    · rw [mergeClusters_contacts htpid] at hm
      obtain ⟨c, hc, hce⟩ := List.mem_map.mp hm
      rcases mergeEffect_cases (stales.map (·.id)) tp.id c with
        ⟨-, he⟩ | ⟨-, -, -, he⟩ | ⟨-, hno, he⟩
      · rw [he] at hce
        rw [← hce] at hlq
        exact hqtp (Option.some_inj.mp hlq).symm
      · rw [he] at hce
        rw [← hce] at hlq
        exact hqtp (Option.some_inj.mp hlq).symm
      · rw [he] at hce
        subst hce
        exact hno ⟨⟨q.id, hlq, hqid⟩, hdel⟩
    · rw [hm] at hlq
      exact hqtp (Option.some_inj.mp hlq).symm
  · -- every row that pointed at a stale primary now points at tp
    intro c hc hdel q hq hlq
    have hqid : q.id ∈ stales.map (·.id) := List.mem_map.mpr ⟨q, hq, rfl⟩
    have hcid : c.id ∉ stales.map (·.id) := by
      intro hmem
      obtain ⟨q', hq', hq'id⟩ := List.mem_map.mp hmem
      have : q' = c := eq_of_mem_of_id_eq hwf.nodupIds (hstf q' hq').1 hc hq'id
      have hcp : c.linkPrecedence = .primary := this ▸ (hstf q' hq').2.1
      rw [hwf.primaryNoLink c hc hcp] at hlq
      exact Option.noConfusion hlq
    have heff : mergeEffect (stales.map (·.id)) tp.id c =
        { c with linkedId := some tp.id } := by
      rcases mergeEffect_cases (stales.map (·.id)) tp.id c with
        ⟨h1, -⟩ | ⟨-, -, -, he⟩ | ⟨-, hno, -⟩
      · exact absurd h1 hcid
      · exact he
      · exact absurd ⟨⟨q.id, hlq, hqid⟩, hdel⟩ hno
    have hmem : ({ c with linkedId := some tp.id } : Contact) ∈
        (mergedStore tp stales em ph s).contacts := by
      refine mergedStore_mem_intro ?_
      rw [mergeClusters_contacts htpid]
      exact heff ▸ List.mem_map_of_mem _ hc
    exact find?_id_eq hndS2 hmem

/-- Witness for C5 at a concrete input: `exB` is demoted to a member of
`exA`, and `exB`'s former member `exC` is relinked to `exA` directly. -/
theorem members_never_point_at_demoted_witness :
    ∃ s' r, identifyContact
        { email := some "a@x.com", phoneNumber := some "111" } exStore =
        Except.ok (s', r) ∧
      (∀ c' ∈ s'.contacts, c'.deletedAt = none →
        c'.linkPrecedence = .secondary →
        ∀ q ∈ [exB], c'.linkedId ≠ some q.id) ∧
      (∀ c ∈ exStore.contacts, c.deletedAt = none →
        ∀ q ∈ [exB], c.linkedId = some q.id →
        rowWithId c.id s' = some { c with linkedId := some exA.id }) :=
  members_never_point_at_demoted exStore (some "a@x.com") (some "111") exA
    [exB] ⟨by decide, by decide, by decide, by decide⟩ (by decide) (by decide)

/-! ## Claim C3: the fact ingestor creates a member iff a fact is new -/

/-- Claim C3: on the matched path the identify operation succeeds ending in
`mergedStore`; against the fresh post-merge cluster, exactly one new
contact is appended iff the submitted email is present (truthy) and absent
from the cluster's distinct emails, or likewise for the phone; the created
row is a member linked to the true primary carrying exactly the submitted
fields (no backfilling), and nothing is created when neither fact is
new. -/
theorem fact_ingestor_new_iff
    (s : Store) (em ph : Option String) (tp : Contact) (stales : List Contact)
    (hwf : WellFormed s)
    (hne : findContactsByEmailOrPhone em ph s ≠ [])
    (hp : clusterPrimaries (findContactCluster
      (getRootPrimaryIds (findContactsByEmailOrPhone em ph s)) s) =
        tp :: stales) :
    ∃ r, identifyContact { email := em, phoneNumber := ph } s =
        Except.ok (mergedStore tp stales em ph s, r) ∧
      ((isNewEmail em (findContactCluster [tp.id] (mergeClusters tp stales s)) ||
        isNewPhone ph (findContactCluster [tp.id] (mergeClusters tp stales s))) = true →
        (mergedStore tp stales em ph s).contacts =
          (mergeClusters tp stales s).contacts ++
            [{ id := (mergeClusters tp stales s).nextId, phoneNumber := ph,
               email := em, linkedId := some tp.id,
               linkPrecedence := .secondary,
               createdAt := (mergeClusters tp stales s).now,
               deletedAt := none }]) ∧
      ((isNewEmail em (findContactCluster [tp.id] (mergeClusters tp stales s)) ||
        isNewPhone ph (findContactCluster [tp.id] (mergeClusters tp stales s))) = false →
        mergedStore tp stales em ph s = mergeClusters tp stales s) ∧
      (isNewEmail em (findContactCluster [tp.id] (mergeClusters tp stales s)) = true ↔
        ∃ e, em = some e ∧ e ≠ "" ∧
          e ∉ clusterEmailsOf
            (findContactCluster [tp.id] (mergeClusters tp stales s))) ∧
      (isNewPhone ph (findContactCluster [tp.id] (mergeClusters tp stales s)) = true ↔
        ∃ p, ph = some p ∧ p ≠ "" ∧
          p ∉ clusterPhonesOf
            (findContactCluster [tp.id] (mergeClusters tp stales s))) := by
  obtain ⟨htps, htpp, htpd, htpl, htpid, hstf⟩ := truePrimary_facts hwf hp
  have heq : identifyContact { email := em, phoneNumber := ph } s =
      mergeOutcome tp stales em ph s :=
    (identify_matched hne).trans (mergeAndRespond_cons hp)
  have hok := mergeOutcome_ok tp stales em ph s hwf.nodupIds hwf.idLt htps
    htpd htpl htpid
  refine ⟨_, heq.trans hok, ?_, ?_, isNewEmail_iff _ _, isNewPhone_iff _ _⟩
  · intro hcond
    rw [mergedStore_eq, if_pos hcond]
    rfl
  · intro hcond
    rw [mergedStore_eq, if_neg (by rw [hcond]; exact Bool.false_ne_true)]

/-- A lone representative carrying an email and a phone. -/
def exD : Contact :=
  { id := 1, phoneNumber := some "1", email := some "a@x.com",
    linkedId := none, linkPrecedence := .primary, createdAt := 1,
    deletedAt := none }

def exDStore : Store := { contacts := [exD], nextId := 2, now := 9 }

/-- Witness for C3 at a concrete input: same email, new phone "2". -/
theorem fact_ingestor_new_iff_witness :
    ∃ r, identifyContact
        { email := some "a@x.com", phoneNumber := some "2" } exDStore =
        Except.ok (mergedStore exD [] (some "a@x.com") (some "2") exDStore,
          r) ∧
      ((isNewEmail (some "a@x.com")
          (findContactCluster [exD.id] (mergeClusters exD [] exDStore)) ||
        isNewPhone (some "2")
          (findContactCluster [exD.id] (mergeClusters exD [] exDStore))) = true →
        (mergedStore exD [] (some "a@x.com") (some "2") exDStore).contacts =
          (mergeClusters exD [] exDStore).contacts ++
            [{ id := (mergeClusters exD [] exDStore).nextId,
               phoneNumber := some "2", email := some "a@x.com",
               linkedId := some exD.id, linkPrecedence := .secondary,
               createdAt := (mergeClusters exD [] exDStore).now,
               deletedAt := none }]) ∧
      ((isNewEmail (some "a@x.com")
          (findContactCluster [exD.id] (mergeClusters exD [] exDStore)) ||
        isNewPhone (some "2")
          (findContactCluster [exD.id] (mergeClusters exD [] exDStore))) = false →
        mergedStore exD [] (some "a@x.com") (some "2") exDStore =
          mergeClusters exD [] exDStore) ∧
      (isNewEmail (some "a@x.com")
          (findContactCluster [exD.id] (mergeClusters exD [] exDStore)) = true ↔
        ∃ e, (some "a@x.com" : Option String) = some e ∧ e ≠ "" ∧
          e ∉ clusterEmailsOf
            (findContactCluster [exD.id] (mergeClusters exD [] exDStore))) ∧
      (isNewPhone (some "2")
          (findContactCluster [exD.id] (mergeClusters exD [] exDStore)) = true ↔
        ∃ p, (some "2" : Option String) = some p ∧ p ≠ "" ∧
          p ∉ clusterPhonesOf
            (findContactCluster [exD.id] (mergeClusters exD [] exDStore))) :=
  fact_ingestor_new_iff exDStore (some "a@x.com") (some "2") exD []
    ⟨by decide, by decide, by decide, by decide⟩ (by decide) (by decide)

/-! ## Claim C4: idempotence of the identify operation -/

/-- The row inserted by `createPrimaryContact`. -/
def newPrimaryRow (em ph : Option String) (s : Store) : Contact :=
  { id := s.nextId, phoneNumber := ph, email := em, linkedId := none,
    linkPrecedence := .primary, createdAt := s.now, deletedAt := none }

/-- The store after `createPrimaryContact` on the no-match path. -/
def createdStore (em ph : Option String) (s : Store) : Store :=
  { s with
    contacts := s.contacts ++ [newPrimaryRow em ph s],
    nextId := s.nextId + 1 }

theorem identify_unmatched {em ph : Option String} {s : Store}
    (hm : findContactsByEmailOrPhone em ph s = []) :
    identifyContact { email := em, phoneNumber := ph } s =
      Except.ok (createdStore em ph s,
        buildResponse (newPrimaryRow em ph s) []) := by
  unfold identifyContact
  simp only [hm, List.isEmpty_nil, if_true]
  rfl

theorem mergeClusters_nil (tp : Contact) (s : Store) :
    mergeClusters tp [] s = s := rfl

theorem mem_clusterEmailsOf {l : List Contact} {e : String} :
    e ∈ clusterEmailsOf l ↔ ∃ c ∈ l, c.email = some e :=
  List.mem_filterMap

theorem mem_clusterPhonesOf {l : List Contact} {p : String} :
    p ∈ clusterPhonesOf l ↔ ∃ c ∈ l, c.phoneNumber = some p :=
  List.mem_filterMap

theorem isNewEmail_false_of_mem {em : Option String} {cluster : List Contact}
    (h : ∀ e, em = some e → e ≠ "" → e ∈ clusterEmailsOf cluster) :
    isNewEmail em cluster = false := by
  cases hm : isNewEmail em cluster with
  | false => rfl
  | true =>
    obtain ⟨e, he, hne, hnotin⟩ := (isNewEmail_iff em cluster).mp hm
    exact absurd (h e he hne) hnotin

theorem isNewPhone_false_of_mem {ph : Option String} {cluster : List Contact}
    (h : ∀ p, ph = some p → p ≠ "" → p ∈ clusterPhonesOf cluster) :
    isNewPhone ph cluster = false := by
  cases hm : isNewPhone ph cluster with
  | false => rfl
  | true =>
    obtain ⟨p, hp, hne, hnotin⟩ := (isNewPhone_iff ph cluster).mp hm
    exact absurd (h p hp hne) hnotin

theorem mem_of_isNewEmail_false {em : Option String} {cluster : List Contact}
    {e : String} (h : isNewEmail em cluster = false) (he : em = some e)
    (hne : e ≠ "") : e ∈ clusterEmailsOf cluster := by
  by_contra hn
  have ht : isNewEmail em cluster = true :=
    (isNewEmail_iff _ _).mpr ⟨e, he, hne, hn⟩
  rw [h] at ht
  exact Bool.noConfusion ht

theorem mem_of_isNewPhone_false {ph : Option String} {cluster : List Contact}
    {p : String} (h : isNewPhone ph cluster = false) (hp : ph = some p)
    (hne : p ≠ "") : p ∈ clusterPhonesOf cluster := by
  by_contra hn
  have ht : isNewPhone ph cluster = true :=
    (isNewPhone_iff _ _).mpr ⟨p, hp, hne, hn⟩
  rw [h] at ht
  exact Bool.noConfusion ht

theorem createdStore_contacts (em ph : Option String) (s : Store) :
    (createdStore em ph s).contacts =
      s.contacts ++ [newPrimaryRow em ph s] := rfl

/-- Idempotence on the no-match path: the second call finds exactly the
newly created representative and changes nothing. -/
theorem identify_create_idem {em ph : Option String} {s : Store}
    (hwf : WellFormed s) (hty : (truthy em || truthy ph) = true)
    (hm : findContactsByEmailOrPhone em ph s = []) :
    ∃ s₁ r₁, identifyContact { email := em, phoneNumber := ph } s =
        Except.ok (s₁, r₁) ∧
      identifyContact { email := em, phoneNumber := ph } s₁ =
        Except.ok (s₁, r₁) := by
  refine ⟨_, _, identify_unmatched hm, ?_⟩
  have hor : truthy em = true ∨ truthy ph = true := by
    rw [← Bool.or_eq_true]
    exact hty
  have hNmem : newPrimaryRow em ph s ∈ (createdStore em ph s).contacts := by
    rw [createdStore_contacts]
    exact List.mem_append_right _ (List.mem_singleton.mpr rfl)
  have hNmatch : newPrimaryRow em ph s ∈
      findContactsByEmailOrPhone em ph (createdStore em ph s) := by
    refine mem_findContactsByEmailOrPhone.mpr ⟨hor, hNmem, rfl, ?_⟩
    rcases hor with he | hp
    · exact Or.inl ⟨he, rfl⟩
    · exact Or.inr ⟨hp, rfl⟩
  have hne₂ : findContactsByEmailOrPhone em ph (createdStore em ph s) ≠ [] :=
    List.ne_nil_of_mem hNmatch
  have hallN : ∀ c ∈ findContactsByEmailOrPhone em ph (createdStore em ph s),
      c = newPrimaryRow em ph s := by
    intro c hc
    obtain ⟨-, hcm, hcdel, hcmatch⟩ := mem_findContactsByEmailOrPhone.mp hc
    rw [createdStore_contacts] at hcm
    rcases List.mem_append.mp hcm with hcs | hcN
    · exfalso
      have hin : c ∈ findContactsByEmailOrPhone em ph s :=
        mem_findContactsByEmailOrPhone.mpr ⟨hor, hcs, hcdel, hcmatch⟩
      rw [hm] at hin
      exact List.not_mem_nil c hin
    · exact List.mem_singleton.mp hcN
  have hroots : getRootPrimaryIds
      (findContactsByEmailOrPhone em ph (createdStore em ph s)) =
      [(newPrimaryRow em ph s).id] := by
    refine getRootPrimaryIds_const ?_ hne₂
    intro c hc
    rw [hallN c hc]
    exact Or.inl ⟨rfl, rfl⟩
  have hclusterN : ∀ c ∈ findContactCluster [(newPrimaryRow em ph s).id]
      (createdStore em ph s), c = newPrimaryRow em ph s := by
    intro c hc
    obtain ⟨hcm, hcdel, hroot⟩ := mem_findContactCluster.mp hc
    rw [createdStore_contacts] at hcm
    rcases List.mem_append.mp hcm with hcs | hcN
    · exfalso
      rcases hroot with hid | ⟨l, hl, hlin⟩
      · have hlt := hwf.idLt c hcs
        rw [List.mem_singleton.mp hid] at hlt
        exact Nat.lt_irrefl _ hlt
      · have hlid : l = (newPrimaryRow em ph s).id := List.mem_singleton.mp hlin
        cases hcp : c.linkPrecedence with
        | primary =>
          rw [hwf.primaryNoLink c hcs hcp] at hl
          exact Option.noConfusion hl
        | secondary =>
          obtain ⟨p, hps, hplink, -, -⟩ := hwf.secondaryLink c hcs hcp hcdel
          rw [hplink] at hl
          have hpid : p.id = l := Option.some_inj.mp hl
          have hplt := hwf.idLt p hps
          rw [hpid, hlid] at hplt
          exact Nat.lt_irrefl _ hplt
    · exact List.mem_singleton.mp hcN
  have hNclu : newPrimaryRow em ph s ∈
      findContactCluster [(newPrimaryRow em ph s).id] (createdStore em ph s) :=
    mem_findContactCluster.mpr
      ⟨hNmem, rfl, Or.inl (List.mem_singleton.mpr rfl)⟩
  have hnd₁ : ((createdStore em ph s).contacts.map Contact.id).Nodup := by
    rw [createdStore_contacts, List.map_append,
      show List.map Contact.id [newPrimaryRow em ph s] = [s.nextId] from rfl,
      ← List.concat_eq_append]
    exact List.Nodup.concat (nextId_not_in_ids hwf.idLt) hwf.nodupIds
  have hlt₁ : ∀ c ∈ (createdStore em ph s).contacts,
      c.id < (createdStore em ph s).nextId := by
    intro c hc
    rw [createdStore_contacts] at hc
    rcases List.mem_append.mp hc with h | h
    · exact Nat.lt_trans (hwf.idLt c h) (Nat.lt_succ_self _)
    · rw [List.mem_singleton.mp h]
      exact Nat.lt_succ_self _
  have hcp : clusterPrimaries (findContactCluster
      [(newPrimaryRow em ph s).id] (createdStore em ph s)) =
      [newPrimaryRow em ph s] := by
    unfold clusterPrimaries
    rw [filter_eq_singleton ((cluster_ids_nodup hnd₁ _).of_map) hNclu rfl
      (fun c hc _ => hclusterN c hc)]
    exact sortByCreatedAt_singleton _
  have heq2 : identifyContact { email := em, phoneNumber := ph }
      (createdStore em ph s) =
      mergeOutcome (newPrimaryRow em ph s) [] em ph (createdStore em ph s) := by
    refine (identify_matched hne₂).trans (mergeAndRespond_cons ?_)
    rw [hroots]
    exact hcp
  have hofk := mergeOutcome_ok (newPrimaryRow em ph s) [] em ph
    (createdStore em ph s) hnd₁ hlt₁ hNmem rfl rfl (by simp)
  have hfalse : (isNewEmail em (findContactCluster [(newPrimaryRow em ph s).id]
      (mergeClusters (newPrimaryRow em ph s) [] (createdStore em ph s))) ||
      isNewPhone ph (findContactCluster [(newPrimaryRow em ph s).id]
      (mergeClusters (newPrimaryRow em ph s) [] (createdStore em ph s)))) =
      false := by
    rw [mergeClusters_nil]
    have he : isNewEmail em (findContactCluster [(newPrimaryRow em ph s).id]
        (createdStore em ph s)) = false :=
      isNewEmail_false_of_mem fun e hee hne' =>
        mem_clusterEmailsOf.mpr ⟨newPrimaryRow em ph s, hNclu, hee⟩
    have hph : isNewPhone ph (findContactCluster [(newPrimaryRow em ph s).id]
        (createdStore em ph s)) = false :=
      isNewPhone_false_of_mem fun p hpp hne' =>
        mem_clusterPhonesOf.mpr ⟨newPrimaryRow em ph s, hNclu, hpp⟩
    rw [he, hph]
    rfl
  have hms : mergedStore (newPrimaryRow em ph s) [] em ph
      (createdStore em ph s) = createdStore em ph s := by
    rw [mergedStore_eq, if_neg (by rw [hfalse]; exact Bool.false_ne_true),
      mergeClusters_nil]
  have hsec : (findContactCluster [(newPrimaryRow em ph s).id]
      (createdStore em ph s)).filter
        (fun c => c.linkPrecedence == .secondary) = [] := by
    rw [List.filter_eq_nil_iff]
    intro c hc
    rw [hclusterN c hc]
    simp [newPrimaryRow]
  rw [heq2, hofk, hms, hsec]

theorem createSecondaryContact_contacts (i : Nat) (em ph : Option String)
    (s1 : Store) :
    (createSecondaryContact i em ph s1).2.contacts =
      s1.contacts ++ [newSecondaryRow i em ph s1] := rfl

theorem createSecondaryContact_nextId (i : Nat) (em ph : Option String)
    (s1 : Store) :
    (createSecondaryContact i em ph s1).2.nextId = s1.nextId + 1 := rfl

theorem mergedStore_idLt {tp : Contact} {stales : List Contact}
    {em ph : Option String} {s : Store}
    (htpid : tp.id ∉ stales.map (·.id))
    (hlt : ∀ c ∈ s.contacts, c.id < s.nextId) :
    ∀ c ∈ (mergedStore tp stales em ph s).contacts,
      c.id < (mergedStore tp stales em ph s).nextId := by
  rw [mergedStore_eq]
  by_cases h : (isNewEmail em (findContactCluster [tp.id] (mergeClusters tp stales s)) ||
      isNewPhone ph (findContactCluster [tp.id] (mergeClusters tp stales s))) = true
  · rw [if_pos h]
    intro c hc
    rw [createSecondaryContact_contacts] at hc
    rw [createSecondaryContact_nextId]
    rcases List.mem_append.mp hc with h1 | h1
    · rw [mergeClusters_contacts htpid] at h1
      obtain ⟨c0, hc0, hce⟩ := List.mem_map.mp h1
      rw [← hce, mergeEffect_id, mergeClusters_nextId htpid]
      exact Nat.lt_trans (hlt c0 hc0) (Nat.lt_succ_self _)
    · rw [List.mem_singleton.mp h1]
      exact Nat.lt_succ_self _
  · rw [if_neg h]
    intro c hc
    rw [mergeClusters_contacts htpid] at hc
    obtain ⟨c0, hc0, hce⟩ := List.mem_map.mp hc
    rw [← hce, mergeEffect_id, mergeClusters_nextId htpid]
    exact hlt c0 hc0

theorem fresh_subset_final {tp : Contact} {stales : List Contact}
    {em ph : Option String} {s : Store} :
    ∀ c ∈ findContactCluster [tp.id] (mergeClusters tp stales s),
      c ∈ findContactCluster [tp.id] (mergedStore tp stales em ph s) := by
  intro c hc
  obtain ⟨hc1, hdel, hroot⟩ := mem_findContactCluster.mp hc
  exact mem_findContactCluster.mpr ⟨mergedStore_mem_intro hc1, hdel, hroot⟩

/-- After a successful merge, every contact matching the payload in the
merged store resolves to the surviving true primary. -/
theorem matched_roots_to_tp {s : Store} {em ph : Option String}
    {tp : Contact} {stales : List Contact} (hwf : WellFormed s)
    (hp : clusterPrimaries (findContactCluster
      (getRootPrimaryIds (findContactsByEmailOrPhone em ph s)) s) =
        tp :: stales) :
    ∀ c' ∈ findContactsByEmailOrPhone em ph (mergedStore tp stales em ph s),
      (c'.linkPrecedence = .primary ∧ c'.id = tp.id) ∨
      (c'.linkPrecedence = .secondary ∧ c'.linkedId = some tp.id) := by
  obtain ⟨htps, htpp, htpd, htpl, htpid, hstf⟩ := truePrimary_facts hwf hp
  intro c' hc'
  obtain ⟨hor, hmem₁, hdel', hmatch'⟩ := mem_findContactsByEmailOrPhone.mp hc'
  rcases mergedStore_mem_elim hmem₁ with hm1 | hnew
  · rw [mergeClusters_contacts htpid] at hm1
    obtain ⟨c, hc, hce⟩ := List.mem_map.mp hm1
    rcases mergeEffect_cases (stales.map (·.id)) tp.id c with
      ⟨hcid, he⟩ | ⟨hcid, hlk, hdl, he⟩ | ⟨hcid, hno, he⟩
    · rw [he] at hce
      rw [← hce]
      exact Or.inr ⟨rfl, rfl⟩
    · rw [he] at hce
      rw [← hce]
      cases hcp : c.linkPrecedence with
      | primary =>
        obtain ⟨l, hl, -⟩ := hlk
        rw [hwf.primaryNoLink c hc hcp] at hl
        exact Option.noConfusion hl
      | secondary => exact Or.inr ⟨rfl, rfl⟩
    · rw [he] at hce
      subst hce
      have hcm : c ∈ findContactsByEmailOrPhone em ph s :=
        mem_findContactsByEmailOrPhone.mpr ⟨hor, hc, hdel', hmatch'⟩
      cases hcp : c.linkPrecedence with
      | primary =>
        have hcin : c ∈ (tp :: stales) := by
          rw [← hp]
          exact mem_clusterPrimaries.mpr
            ⟨mem_findContactCluster.mpr ⟨hc, hdel',
              Or.inl (mem_getRootPrimaryIds.mpr
                ⟨c, hcm, Or.inl ⟨hcp, rfl⟩⟩)⟩, hcp⟩
        rcases List.mem_cons.mp hcin with heq | hst
        · exact Or.inl ⟨rfl, by rw [heq]⟩
        · exact absurd (List.mem_map.mpr ⟨c, hst, rfl⟩) hcid
      | secondary =>
        obtain ⟨p, hps, hplink, hpp, hpdel⟩ :=
          hwf.secondaryLink c hc hcp hdel'
        have hpin : p ∈ (tp :: stales) := by
          rw [← hp]
          exact mem_clusterPrimaries.mpr
            ⟨mem_findContactCluster.mpr ⟨hps, hpdel,
              Or.inl (mem_getRootPrimaryIds.mpr
                ⟨c, hcm, Or.inr ⟨hcp, hplink⟩⟩)⟩, hpp⟩
        rcases List.mem_cons.mp hpin with heq | hst
        · exact Or.inr ⟨rfl, by rw [hplink, heq]⟩
        · exact absurd ⟨⟨p.id, hplink, List.mem_map.mpr ⟨p, hst, rfl⟩⟩, hdel'⟩
            hno
  · rw [hnew]
    exact Or.inr ⟨rfl, rfl⟩

/-- After a successful merge, the re-fetched cluster of the survivor holds
exactly one representative: the survivor itself. -/
theorem final_primaries_singleton {s : Store} {em ph : Option String}
    {tp : Contact} {stales : List Contact} (hwf : WellFormed s)
    (hp : clusterPrimaries (findContactCluster
      (getRootPrimaryIds (findContactsByEmailOrPhone em ph s)) s) =
        tp :: stales) :
    clusterPrimaries (findContactCluster [tp.id]
      (mergedStore tp stales em ph s)) = [tp] := by
  obtain ⟨htps, htpp, htpd, htpl, htpid, hstf⟩ := truePrimary_facts hwf hp
  have htpS2 : tp ∈ (mergedStore tp stales em ph s).contacts :=
    mergedStore_mem_intro (tp_mem_mergeClusters htpid htpl htps)
  have hndS2 := @mergedStore_ids_nodup tp stales em ph s htpid hwf.nodupIds
    hwf.idLt
  have htpfin : tp ∈ findContactCluster [tp.id] (mergedStore tp stales em ph s) :=
    mem_findContactCluster.mpr
      ⟨htpS2, htpd, Or.inl (List.mem_singleton.mpr rfl)⟩
  have hall : ∀ c ∈ findContactCluster [tp.id] (mergedStore tp stales em ph s),
      (c.linkPrecedence == LinkPrecedence.primary) = true → c = tp := by
    intro c hc hcpb
    have hcp : c.linkPrecedence = .primary := by
      rw [← beq_iff_eq]
      exact hcpb
    obtain ⟨hcm, hdel, hroot⟩ := mem_findContactCluster.mp hc
    rcases mergedStore_mem_elim hcm with hm1 | hnew
    · rw [mergeClusters_contacts htpid] at hm1
      obtain ⟨c0, hc0, hce⟩ := List.mem_map.mp hm1
      rcases mergeEffect_cases (stales.map (·.id)) tp.id c0 with
        ⟨-, he⟩ | ⟨-, hlk, -, he⟩ | ⟨-, -, he⟩
      · rw [he] at hce
        rw [← hce] at hcp
        exact absurd hcp (by simp)
      · rw [he] at hce
        obtain ⟨l, hl, -⟩ := hlk
        have hc0p : c0.linkPrecedence = .primary := by
          rw [← hce] at hcp
          exact hcp
        rw [hwf.primaryNoLink c0 hc0 hc0p] at hl
        exact Option.noConfusion hl
      · rw [he] at hce
        subst hce
        have hclk : c0.linkedId = none := hwf.primaryNoLink c0 hc0 hcp
        rcases hroot with hid | ⟨l, hl, -⟩
        · exact eq_of_mem_of_id_eq hwf.nodupIds hc0 htps
            (List.mem_singleton.mp hid)
        · rw [hclk] at hl
          exact Option.noConfusion hl
    · rw [hnew] at hcp
      exact absurd hcp (by simp [newSecondaryRow])
  unfold clusterPrimaries
  rw [filter_eq_singleton ((cluster_ids_nodup hndS2 _).of_map) htpfin
    (by rw [beq_iff_eq]; exact htpp) hall]
  exact sortByCreatedAt_singleton _

/-- After the merge transaction, both submitted (truthy) facts are present
in the reloaded cluster of the survivor: either they were already there or
the created secondary carries them. -/
theorem payload_present (tp : Contact) (stales : List Contact)
    (em ph : Option String) (s : Store) :
    isNewEmail em (findContactCluster [tp.id]
      (mergedStore tp stales em ph s)) = false ∧
    isNewPhone ph (findContactCluster [tp.id]
      (mergedStore tp stales em ph s)) = false := by
  by_cases hcond : (isNewEmail em
      (findContactCluster [tp.id] (mergeClusters tp stales s)) ||
      isNewPhone ph
      (findContactCluster [tp.id] (mergeClusters tp stales s))) = true
  · -- a secondary carrying both submitted fields was created
    have hctc : (mergedStore tp stales em ph s).contacts =
        (mergeClusters tp stales s).contacts ++
          [newSecondaryRow tp.id em ph (mergeClusters tp stales s)] := by
      rw [mergedStore_eq, if_pos hcond, createSecondaryContact_contacts]
    have hnewmem : newSecondaryRow tp.id em ph (mergeClusters tp stales s) ∈
        (mergedStore tp stales em ph s).contacts := by
      rw [hctc]
      exact List.mem_append_right _ (List.mem_singleton.mpr rfl)
    have hnewfin : newSecondaryRow tp.id em ph (mergeClusters tp stales s) ∈
        findContactCluster [tp.id] (mergedStore tp stales em ph s) :=
      mem_findContactCluster.mpr ⟨hnewmem, rfl,
        Or.inr ⟨tp.id, rfl, List.mem_singleton.mpr rfl⟩⟩
    constructor
    · exact isNewEmail_false_of_mem fun e hee hne' =>
        mem_clusterEmailsOf.mpr ⟨_, hnewfin, hee⟩
    · exact isNewPhone_false_of_mem fun p hpp hne' =>
        mem_clusterPhonesOf.mpr ⟨_, hnewfin, hpp⟩
  · -- nothing was created, so both facts were already in the fresh cluster
    have hcf : (isNewEmail em
        (findContactCluster [tp.id] (mergeClusters tp stales s)) ||
        isNewPhone ph
        (findContactCluster [tp.id] (mergeClusters tp stales s))) = false := by
      cases h : (isNewEmail em
          (findContactCluster [tp.id] (mergeClusters tp stales s)) ||
          isNewPhone ph
          (findContactCluster [tp.id] (mergeClusters tp stales s))) with
      | false => rfl
      | true => exact absurd h hcond
    have hie : isNewEmail em
        (findContactCluster [tp.id] (mergeClusters tp stales s)) = false := by
      cases h2 : isNewEmail em
          (findContactCluster [tp.id] (mergeClusters tp stales s)) with
      | false => rfl
      | true =>
        rw [h2, Bool.true_or] at hcf
        exact Bool.noConfusion hcf
    have hip : isNewPhone ph
        (findContactCluster [tp.id] (mergeClusters tp stales s)) = false := by
      cases h2 : isNewPhone ph
          (findContactCluster [tp.id] (mergeClusters tp stales s)) with
      | false => rfl
      | true =>
        rw [h2, Bool.or_true] at hcf
        exact Bool.noConfusion hcf
    constructor
    · refine isNewEmail_false_of_mem fun e hee hne' => ?_
      obtain ⟨c, hcf2, hcem⟩ :=
        mem_clusterEmailsOf.mp (mem_of_isNewEmail_false hie hee hne')
      exact mem_clusterEmailsOf.mpr ⟨c, fresh_subset_final c hcf2, hcem⟩
    · refine isNewPhone_false_of_mem fun p hpp hne' => ?_
      obtain ⟨c, hcf2, hcph⟩ :=
        mem_clusterPhonesOf.mp (mem_of_isNewPhone_false hip hpp hne')
      exact mem_clusterPhonesOf.mpr ⟨c, fresh_subset_final c hcf2, hcph⟩

/-- Idempotence on the matched path. -/
theorem identify_merge_idem {em ph : Option String} {s : Store}
    (hwf : WellFormed s)
    (hm : findContactsByEmailOrPhone em ph s ≠ []) :
    ∃ s₁ r₁, identifyContact { email := em, phoneNumber := ph } s =
        Except.ok (s₁, r₁) ∧
      identifyContact { email := em, phoneNumber := ph } s₁ =
        Except.ok (s₁, r₁) := by
  obtain ⟨tp, stales, hp⟩ :=
    List.exists_cons_of_ne_nil (clusterPrimaries_matches_ne_nil hwf hm)
  obtain ⟨htps, htpp, htpd, htpl, htpid, hstf⟩ := truePrimary_facts hwf hp
  have heq1 : identifyContact { email := em, phoneNumber := ph } s =
      mergeOutcome tp stales em ph s :=
    (identify_matched hm).trans (mergeAndRespond_cons hp)
  have hok1 := mergeOutcome_ok tp stales em ph s hwf.nodupIds hwf.idLt htps
    htpd htpl htpid
  refine ⟨mergedStore tp stales em ph s, _, heq1.trans hok1, ?_⟩
  have hnd₁ := @mergedStore_ids_nodup tp stales em ph s htpid hwf.nodupIds
    hwf.idLt
  have hlt₁ := @mergedStore_idLt tp stales em ph s htpid hwf.idLt
  have htpS2 : tp ∈ (mergedStore tp stales em ph s).contacts :=
    mergedStore_mem_intro (tp_mem_mergeClusters htpid htpl htps)
  obtain ⟨c, hc⟩ := List.exists_mem_of_ne_nil _ hm
  obtain ⟨hor, hcs, hcdel, hcmatch⟩ := mem_findContactsByEmailOrPhone.mp hc
  have hc'mem : mergeEffect (stales.map (·.id)) tp.id c ∈
      (mergedStore tp stales em ph s).contacts := by
    refine mergedStore_mem_intro ?_
    rw [mergeClusters_contacts htpid]
    exact List.mem_map_of_mem _ hcs
  have hc'match : mergeEffect (stales.map (·.id)) tp.id c ∈
      findContactsByEmailOrPhone em ph (mergedStore tp stales em ph s) := by
    refine mem_findContactsByEmailOrPhone.mpr ⟨hor, hc'mem, ?_, ?_⟩
    · rw [mergeEffect_deletedAt]
      exact hcdel
    · rcases hcmatch with ⟨h1, h2⟩ | ⟨h1, h2⟩
      · exact Or.inl ⟨h1, by rw [mergeEffect_email]; exact h2⟩
      · exact Or.inr ⟨h1, by rw [mergeEffect_phoneNumber]; exact h2⟩
  have hne₂ : findContactsByEmailOrPhone em ph
      (mergedStore tp stales em ph s) ≠ [] := List.ne_nil_of_mem hc'match
  have hroots₂ : getRootPrimaryIds (findContactsByEmailOrPhone em ph
      (mergedStore tp stales em ph s)) = [tp.id] :=
    getRootPrimaryIds_const (matched_roots_to_tp hwf hp) hne₂
  have hcp₂ : clusterPrimaries (findContactCluster
      (getRootPrimaryIds (findContactsByEmailOrPhone em ph
        (mergedStore tp stales em ph s)))
      (mergedStore tp stales em ph s)) = tp :: [] := by
    rw [hroots₂]
    exact final_primaries_singleton hwf hp
  have heq2 : identifyContact { email := em, phoneNumber := ph }
      (mergedStore tp stales em ph s) =
      mergeOutcome tp [] em ph (mergedStore tp stales em ph s) :=
    (identify_matched hne₂).trans (mergeAndRespond_cons hcp₂)
  have hok2 := mergeOutcome_ok tp [] em ph (mergedStore tp stales em ph s)
    hnd₁ hlt₁ htpS2 htpd htpl (by simp)
  have hpres := payload_present tp stales em ph s
  have hcondf : (isNewEmail em (findContactCluster [tp.id]
      (mergeClusters tp [] (mergedStore tp stales em ph s))) ||
      isNewPhone ph (findContactCluster [tp.id]
      (mergeClusters tp [] (mergedStore tp stales em ph s)))) = false := by
    rw [mergeClusters_nil, hpres.1, hpres.2]
    rfl
  have hms : mergedStore tp [] em ph (mergedStore tp stales em ph s) =
      mergedStore tp stales em ph s := by
    rw [mergedStore_eq, if_neg (by rw [hcondf]; exact Bool.false_ne_true),
      mergeClusters_nil]
  rw [heq2, hok2, hms]

/-- Claim C4: for every well-formed store and every payload with at least
one (truthy) field, calling the identify operation twice with the same
payload succeeds both times, returns identical responses, and the second
call leaves the store exactly as the first call left it — zero additional
contacts are created. -/
theorem identify_idempotent (s : Store) (em ph : Option String)
    (hwf : WellFormed s) (hty : (truthy em || truthy ph) = true) :
    ∃ s₁ r₁, identifyContact { email := em, phoneNumber := ph } s =
        Except.ok (s₁, r₁) ∧
      identifyContact { email := em, phoneNumber := ph } s₁ =
        Except.ok (s₁, r₁) := by
  by_cases hm : findContactsByEmailOrPhone em ph s = []
  · exact identify_create_idem hwf hty hm
  · exact identify_merge_idem hwf hm

/-- Witness for C4 at a concrete input (a store that triggers a merge and
a creation on the first call, and nothing on the second). -/
theorem identify_idempotent_witness :
    ∃ s₁ r₁, identifyContact
        { email := some "a@x.com", phoneNumber := some "111" } exStore =
        Except.ok (s₁, r₁) ∧
      identifyContact
        { email := some "a@x.com", phoneNumber := some "111" } s₁ =
        Except.ok (s₁, r₁) :=
  identify_idempotent exStore (some "a@x.com") (some "111")
    ⟨by decide, by decide, by decide, by decide⟩ (by decide)

end BiteSpeed
